import Mathlib

/-!
# Verification of the loadstar installer core

A shallow embedding, in Lean 4, of the wizard state machine, the install
executor and the interactive-loop install handling of the `installer` crate
(`src/installer/src/wizard.rs`, `executor.rs`, `main.rs`), together with
theorems settling the specification claims about them.

Conventions of the embedding:
* Rust `usize` values become `Nat`; `saturating_sub` is `Nat` subtraction,
  `checked_sub(1).unwrap_or(k)` becomes an explicit `if = 0 then k else n-1`.
* External process invocation is modelled by an environment `Env` mapping a
  (program, argument-list) pair to its observed outcome; every function that
  spawns processes additionally returns the list of spawns it performed, so
  that "does / does not invoke the installer" is directly statable.
* Wall-clock durations are not modelled: `duration_ms` is always 0.
* `mpsc::Sender::send` never fails observably in the source (results are
  discarded); emission is modelled as appending to a message list.
-/

namespace Loadstar

/-! ## Wizard phases (`wizard.rs`, `WizardPhase`) -/

inductive WizardPhase where
  | boot
  | identity
  | shell
  | devTools
  | apps
  | review
  | install
  | complete
deriving DecidableEq, Repr

namespace WizardPhase

/-- Rust `WizardPhase::all()` — declaration order. -/
def all : List WizardPhase :=
  [boot, identity, shell, devTools, apps, review, install, complete]

/-- Rust `WizardPhase::index` — position in `all()`, defaulting to 0. -/
def index (p : WizardPhase) : Nat :=
  (all.findIdx? (· = p)).getD 0

/-- Rust `WizardPhase::next` — successor in `all()` when one exists. -/
def next (p : WizardPhase) : Option WizardPhase :=
  if p.index + 1 < all.length then all.get? (p.index + 1) else none

/-- Rust `WizardPhase::prev` — predecessor in `all()` when one exists. -/
def prev (p : WizardPhase) : Option WizardPhase :=
  if p.index > 0 then all.get? (p.index - 1) else none

end WizardPhase

/-! ## Wizard state (`wizard.rs`, `WizardState`)

Only the fields the modelled operations read or write are carried;
identity/shell configuration fields appear because the input handlers of
`main.rs` mutate them.  The selection set (`HashSet<String>`) is a
`Finset String`. -/

inductive SetupType where
  | personal | work | minimal | full
deriving DecidableEq, Repr

/-- Rust `SetupType::all()`. -/
def SetupType.all : List SetupType :=
  [.personal, .work, .minimal, .full]

inductive ShellChoice where
  | zsh | bash | fish | nushell
deriving DecidableEq, Repr

/-- Rust `ShellChoice::all()`. -/
def ShellChoice.all : List ShellChoice :=
  [.zsh, .bash, .fish, .nushell]

inductive PromptChoice where
  | starship | powerlevel10k | purePurple | minimal | none
deriving DecidableEq, Repr

/-- Rust `PromptChoice::all()`. -/
def PromptChoice.all : List PromptChoice :=
  [.starship, .powerlevel10k, .purePurple, .minimal, .none]

inductive TerminalChoice where
  | default | wezTerm | alacritty | kitty | iTerm2 | ghostty
deriving DecidableEq, Repr

/-- Rust `TerminalChoice::all()`. -/
def TerminalChoice.all : List TerminalChoice :=
  [.default, .wezTerm, .alacritty, .kitty, .iTerm2, .ghostty]

inductive MultiplexerChoice where
  | tmux | zellij | none
deriving DecidableEq, Repr

/-- Rust `MultiplexerChoice::all()`. -/
def MultiplexerChoice.all : List MultiplexerChoice :=
  [.tmux, .zellij, .none]

structure Identity where
  name : String
  email : String
  github_username : String
  setup_type : SetupType
deriving DecidableEq, Repr

structure ShellConfig where
  shell : ShellChoice
  prompt : PromptChoice
  terminal : TerminalChoice
  multiplexer : Option MultiplexerChoice
deriving DecidableEq, Repr

structure WizardState where
  phase : WizardPhase
  identity : Identity
  shell_config : ShellConfig
  selected_apps : Finset String
  cursor_position : Nat
  scroll_offset : Nat
  input_field : Nat
  show_details : Bool
deriving DecidableEq

namespace WizardState

/-- Rust `WizardState::advance` — Rust mutates `self` and returns `bool`;
modelled as returning the new state paired with the returned flag. -/
def advance (s : WizardState) : WizardState × Bool :=
  match s.phase.next with
  | some nxt =>
      ({ s with phase := nxt, cursor_position := 0, scroll_offset := 0 }, true)
  | none => (s, false)

/-- Rust `WizardState::go_back`. -/
def go_back (s : WizardState) : WizardState × Bool :=
  match s.phase.prev with
  | some prv =>
      -- Don't go back past Boot
      if prv ≠ WizardPhase.boot ∨ s.phase = WizardPhase.identity then
        ({ s with phase := prv, cursor_position := 0, scroll_offset := 0 }, true)
      else
        (s, false)
  | none => (s, false)

/-- Rust `WizardState::toggle_app`. -/
def toggle_app (s : WizardState) (app_id : String) : WizardState :=
  if app_id ∈ s.selected_apps then
    { s with selected_apps := s.selected_apps.erase app_id }
  else
    { s with selected_apps := insert app_id s.selected_apps }

/-- Rust `WizardState::is_app_selected`. -/
def is_app_selected (s : WizardState) (app_id : String) : Prop :=
  app_id ∈ s.selected_apps

end WizardState

/-! ## Catalog fragment (`catalog.rs`)

Only the fields consumed by the executor and the input handlers are
modelled (`id`, `name`, `category`, `install_method`); descriptions, tags,
config files, dependency lists and URLs are display metadata never read by
the modelled operations.  The static `CATALOG` table is data, not logic: it
enters the model as an explicit parameter wherever the source reads it. -/

inductive Category where
  | shellCat | editor | git | terminal | fileManager | search | system
  | network | container | language | database | security | productivity
  | media | cloud | ai
deriving DecidableEq, Repr

/-- Rust `Category::all()`. -/
def Category.all : List Category :=
  [.shellCat, .editor, .git, .terminal, .fileManager, .search, .system,
   .network, .container, .language, .database, .security, .productivity,
   .media, .cloud, .ai]

inductive InstallMethod where
  | brew (pkg : String)
  | brewCask (pkg : String)
  | cargo (pkg : String)
  | npm (pkg : String)
  | pip (pkg : String)
  | go (pkg : String)
  | script (url : String)
  | manual (cmd : String)
  | apt (pkg : String)
deriving DecidableEq, Repr

/-- Rust `InstallMethod::command`. -/
def InstallMethod.command : InstallMethod → String
  | .brew pkg => s!"brew install {pkg}"
  | .brewCask pkg => s!"brew install --cask {pkg}"
  | .cargo pkg => s!"cargo install {pkg}"
  | .npm pkg => s!"npm install -g {pkg}"
  | .pip pkg => s!"pip install {pkg}"
  | .go pkg => s!"go install {pkg}"
  | .script url => s!"curl -fsSL {url} | sh"
  | .manual cmd => cmd
  | .apt pkg => s!"sudo apt install -y {pkg}"

structure App where
  id : String
  name : String
  category : Category
  install_method : InstallMethod
deriving DecidableEq, Repr

/-- Rust `apps_by_category` — catalog entries of one category, in catalog
order. -/
def apps_by_category (catalog : List App) (c : Category) : List App :=
  catalog.filter (fun app => app.category == c)

/-- Rust `WizardState::get_selected_apps` — catalog entries whose id is in
the selection set, in catalog order. -/
def WizardState.get_selected_apps (catalog : List App) (s : WizardState) :
    List App :=
  catalog.filter (fun app => decide (app.id ∈ s.selected_apps))

/-! ## Process invocation model

The source spawns external processes via `std::process::Command::output()`,
which either fails to spawn (`Err`) or blocks until exit and yields exit
status plus captured output.  An `Env` fixes the outcome of every possible
spawn; each modelled function additionally reports the spawns it performed
so that claims about "invoking the installer" are directly statable. -/

/-- Observed outcome of one successful `Command::output()` call.
`statusDisplay` is the `Display` rendering of the `ExitStatus` used by
`format!("exited with code {}", output.status)`. -/
structure CmdOutput where
  success : Bool
  statusDisplay : String
  stdout : String
  stderr : String
deriving DecidableEq, Repr

inductive SpawnResult where
  /-- Rust `.output()` returned `Err(e)` — the process could not be run. -/
  | spawnErr (msg : String)
  /-- Rust `.output()` returned `Ok(output)`. -/
  | ran (out : CmdOutput)
deriving DecidableEq, Repr

/-- One process spawn: program plus argument list. -/
structure Spawn where
  program : String
  args : List String
deriving DecidableEq, Repr

/-- Execution environment: `SystemInfo::has_homebrew()` plus the outcome of
every possible process spawn. -/
structure Env where
  hasHomebrew : Bool
  run : String → List String → SpawnResult

/-- Rust `str::lines` on the lossy decoding of captured output: split at
newlines, strip a carriage return preceding each newline, no entry for a
trailing line terminator.  Defined by structural recursion on the character
list so that concrete instances reduce in the kernel.  The accumulator
holds the current line reversed. -/
def rustLinesAux : List Char → List Char → List String
  | cur, [] => if cur.isEmpty then [] else [String.mk cur.reverse]
  | cur, '\n' :: rest =>
      let line : List Char :=
        match cur with
        | '\r' :: tail => tail.reverse
        | _ => cur.reverse
      String.mk line :: rustLinesAux [] rest
  | cur, c :: rest => rustLinesAux (c :: cur) rest

/-- Rust `str::lines`, as a list of lines. -/
def rustLines (s : String) : List String :=
  rustLinesAux [] s.data

/-- Rust `str::trim` — leading and trailing whitespace removed. -/
def rustTrim (s : String) : String :=
  String.mk
    (((s.data.dropWhile Char.isWhitespace).reverse.dropWhile
      Char.isWhitespace).reverse)

/-! ## Install executor (`executor.rs`) -/

/-- Rust `InstallMessage` — the event type sent from the install thread to
the TUI.  `duration_ms` is always 0 in the model (wall-clock time is not
modelled). -/
inductive InstallMessage where
  | phaseStart (phase : String)
  | packageStart (name method : String)
  | packageSuccess (name : String) (duration_ms : Nat)
  | packageSkipped (name reason : String)
  | packageFailed (name error : String)
  | log (line : String)
  | progress (completed total : Nat)
  | done (succeeded failed skipped : Nat)
  | fatalError (msg : String)
deriving DecidableEq, Repr

/-- Rust `InstallSummary`. -/
structure InstallSummary where
  succeeded : List String
  failed : List (String × String)
  skipped : List (String × String)
deriving DecidableEq, Repr

/-- Rust `InstallSummary::default()`. -/
def InstallSummary.default : InstallSummary := ⟨[], [], []⟩

/-- Rust `run_command` — spawn `program` with `args`, stream non-empty
stdout/stderr lines as log events, classify the exit.  Returns the spawns
performed, the messages sent, and the `Result<(), String>`. -/
def run_command (env : Env) (program : String) (args : List String) :
    List Spawn × List InstallMessage × Except String Unit :=
  let cmd_str := program ++ " " ++ String.intercalate " " args
  let pre : List InstallMessage := [.log s!"[RUN] {cmd_str}"]
  match env.run program args with
  | .spawnErr e =>
      ([⟨program, args⟩], pre,
       .error s!"Failed to run '{cmd_str}': {e}")
  | .ran out =>
      let outLogs := ((rustLines out.stdout).filter (fun l => !l.isEmpty)).map
        (fun l => InstallMessage.log ("  " ++ l))
      let errLogs := ((rustLines out.stderr).filter (fun l => !l.isEmpty)).map
        (fun l => InstallMessage.log ("  " ++ l))
      let result : Except String Unit :=
        if out.success then .ok ()
        else if out.stderr.isEmpty then
          .error s!"exited with code {out.statusDisplay}"
        else
          .error (((rustLines out.stderr).getLast?).getD "unknown error")
      ([⟨program, args⟩], pre ++ outLogs ++ errLogs, result)

/-- Rust `is_brew_installed` — `brew list --formula` succeeds. -/
def is_brew_installed (env : Env) (formula : String) : List Spawn × Bool :=
  ([⟨"brew", ["list", "--formula", formula]⟩],
   match env.run "brew" ["list", "--formula", formula] with
   | .ran out => out.success
   | .spawnErr _ => false)

/-- Rust `is_brew_cask_installed` — `brew list --cask` succeeds. -/
def is_brew_cask_installed (env : Env) (cask : String) : List Spawn × Bool :=
  ([⟨"brew", ["list", "--cask", cask]⟩],
   match env.run "brew" ["list", "--cask", cask] with
   | .ran out => out.success
   | .spawnErr _ => false)

/-- The official Homebrew install command line run by
`bootstrap_homebrew`. -/
def brewInstallScript : String :=
  "NONINTERACTIVE=1 /bin/bash -c \"$(curl -fsSL https://raw.githubusercontent.com/Homebrew/install/HEAD/install.sh)\""

/-- Rust `bootstrap_homebrew`. -/
def bootstrap_homebrew (env : Env) :
    List Spawn × List InstallMessage × Except String Unit :=
  let pre : List InstallMessage :=
    [.log "[BREW] Downloading Homebrew installer..."]
  let sp : List Spawn := [⟨"/bin/bash", ["-c", brewInstallScript]⟩]
  match env.run "/bin/bash" ["-c", brewInstallScript] with
  | .spawnErr e => (sp, pre, .error s!"Failed to run installer: {e}")
  | .ran out =>
      if out.success then (sp, pre, .ok ())
      else (sp, pre, .error s!"Homebrew install failed: {rustTrim out.stderr}")

/-- Rust `install_via_script`. -/
def install_via_script (env : Env) (url : String) :
    List Spawn × List InstallMessage × Except String Unit :=
  let pre : List InstallMessage := [.log s!"[SCRIPT] Downloading {url}"]
  let cmd := s!"curl -fsSL {url} | sh"
  let sp : List Spawn := [⟨"/bin/bash", ["-c", cmd]⟩]
  match env.run "/bin/bash" ["-c", cmd] with
  | .spawnErr e => (sp, pre, .error s!"Failed to run script: {e}")
  | .ran out =>
      if out.success then (sp, pre, .ok ())
      else (sp, pre, .error s!"Script failed: {rustTrim out.stderr}")

/-- Rust `run_shell_command`. -/
def run_shell_command (env : Env) (cmd : String) :
    List Spawn × List InstallMessage × Except String Unit :=
  let pre : List InstallMessage := [.log s!"[CMD] {cmd}"]
  let sp : List Spawn := [⟨"/bin/bash", ["-c", cmd]⟩]
  match env.run "/bin/bash" ["-c", cmd] with
  | .spawnErr e => (sp, pre, .error s!"Failed to run command: {e}")
  | .ran out =>
      if out.success then (sp, pre, .ok ())
      else (sp, pre, .error s!"Command failed: {rustTrim out.stderr}")

/-- Rust `install_app` — dispatch on the install mechanism. -/
def install_app (env : Env) (app : App) :
    List Spawn × List InstallMessage × Except String Unit :=
  match app.install_method with
  | .brew pkg => run_command env "brew" ["install", pkg]
  | .brewCask pkg => run_command env "brew" ["install", "--cask", pkg]
  | .cargo pkg => run_command env "cargo" ["install", pkg]
  | .npm pkg => run_command env "npm" ["install", "-g", pkg]
  | .pip pkg => run_command env "pip3" ["install", pkg]
  | .go pkg => run_command env "go" ["install", pkg]
  | .script url => install_via_script env url
  | .manual cmd => run_shell_command env cmd
  | .apt pkg => run_command env "sudo" ["apt", "install", "-y", pkg]

/-- Mutable loop state of `run_install`: the accumulated summary and the
`completed` counter. -/
structure RunState where
  summary : InstallSummary
  completed : Nat
deriving DecidableEq, Repr

/-- Selector for the `Brew(_)` mechanism. -/
def InstallMethod.isBrew : InstallMethod → Bool
  | .brew _ => true
  | _ => false

/-- Selector for the `BrewCask(_)` mechanism. -/
def InstallMethod.isBrewCask : InstallMethod → Bool
  | .brewCask _ => true
  | _ => false

/-- One iteration of the `brew_formulae` loop of `run_install`.  The
non-`Brew` branch is unreachable for the filtered batch (the source uses
`unreachable!` for the package-name extraction); it is modelled as emitting
nothing. -/
def formulaStep (env : Env) (total : Nat) (st : RunState) (app : App) :
    RunState × List Spawn × List InstallMessage :=
  match app.install_method with
  | .brew pkg =>
      let startMsg := InstallMessage.packageStart app.name s!"brew install {pkg}"
      let (qsp, installed) := is_brew_installed env pkg
      if installed then
        ({ summary :=
             { st.summary with
               skipped := st.summary.skipped ++ [(app.name, "Already installed")] },
           completed := st.completed + 1 },
         qsp,
         [startMsg, .packageSkipped app.name "Already installed",
          .progress (st.completed + 1) total])
      else
        let (isp, ims, res) := run_command env "brew" ["install", pkg]
        match res with
        | .ok () =>
            ({ summary :=
                 { st.summary with succeeded := st.summary.succeeded ++ [app.name] },
               completed := st.completed + 1 },
             qsp ++ isp,
             startMsg :: ims ++
               [.packageSuccess app.name 0, .progress (st.completed + 1) total])
        | .error e =>
            ({ summary :=
                 { st.summary with failed := st.summary.failed ++ [(app.name, e)] },
               completed := st.completed + 1 },
             qsp ++ isp,
             startMsg :: ims ++
               [.packageFailed app.name e, .progress (st.completed + 1) total])
  | _ => (st, [], [])

/-- One iteration of the `brew_casks` loop of `run_install`. -/
def caskStep (env : Env) (total : Nat) (st : RunState) (app : App) :
    RunState × List Spawn × List InstallMessage :=
  match app.install_method with
  | .brewCask pkg =>
      let startMsg :=
        InstallMessage.packageStart app.name s!"brew install --cask {pkg}"
      let (qsp, installed) := is_brew_cask_installed env pkg
      if installed then
        ({ summary :=
             { st.summary with
               skipped := st.summary.skipped ++ [(app.name, "Already installed")] },
           completed := st.completed + 1 },
         qsp,
         [startMsg, .packageSkipped app.name "Already installed",
          .progress (st.completed + 1) total])
      else
        let (isp, ims, res) := run_command env "brew" ["install", "--cask", pkg]
        match res with
        | .ok () =>
            ({ summary :=
                 { st.summary with succeeded := st.summary.succeeded ++ [app.name] },
               completed := st.completed + 1 },
             qsp ++ isp,
             startMsg :: ims ++
               [.packageSuccess app.name 0, .progress (st.completed + 1) total])
        | .error e =>
            ({ summary :=
                 { st.summary with failed := st.summary.failed ++ [(app.name, e)] },
               completed := st.completed + 1 },
             qsp ++ isp,
             startMsg :: ims ++
               [.packageFailed app.name e, .progress (st.completed + 1) total])
  | _ => (st, [], [])

/-- One iteration of the `other_apps` loop of `run_install` — no
already-installed check, straight to `install_app`. -/
def otherStep (env : Env) (total : Nat) (st : RunState) (app : App) :
    RunState × List Spawn × List InstallMessage :=
  let startMsg :=
    InstallMessage.packageStart app.name app.install_method.command
  let (isp, ims, res) := install_app env app
  match res with
  | .ok () =>
      ({ summary :=
           { st.summary with succeeded := st.summary.succeeded ++ [app.name] },
         completed := st.completed + 1 },
       isp,
       startMsg :: ims ++
         [.packageSuccess app.name 0, .progress (st.completed + 1) total])
  | .error e =>
      ({ summary :=
           { st.summary with failed := st.summary.failed ++ [(app.name, e)] },
         completed := st.completed + 1 },
       isp,
       startMsg :: ims ++
         [.packageFailed app.name e, .progress (st.completed + 1) total])

/-- Sequential `for` loop over a batch, threading the run state and
concatenating spawns and messages in emission order. -/
def runLoop
    (step : RunState → App → RunState × List Spawn × List InstallMessage) :
    RunState → List App → RunState × List Spawn × List InstallMessage
  | st, [] => (st, [], [])
  | st, app :: rest =>
      let (st1, sp1, ms1) := step st app
      let (st2, sp2, ms2) := runLoop step st1 rest
      (st2, sp1 ++ sp2, ms1 ++ ms2)

/-- Phases 2 and 3 of `run_install`: the three batches (brew formulae,
brew casks, everything else) followed by the `Done` event. -/
def runBatches (env : Env) (apps : List App) (total : Nat) :
    InstallSummary × List Spawn × List InstallMessage :=
  let brew_formulae := apps.filter (fun a => a.install_method.isBrew)
  let brew_casks := apps.filter (fun a => a.install_method.isBrewCask)
  let other_apps := apps.filter
    (fun a => !a.install_method.isBrew && !a.install_method.isBrewCask)
  let st0 : RunState := ⟨InstallSummary.default, 0⟩
  let fHdr : List InstallMessage :=
    if brew_formulae.isEmpty then [] else [.phaseStart "Homebrew Formulae"]
  let fRes := runLoop (formulaStep env total) st0 brew_formulae
  let cHdr : List InstallMessage :=
    if brew_casks.isEmpty then [] else [.phaseStart "Homebrew Casks"]
  let cRes := runLoop (caskStep env total) fRes.1 brew_casks
  let oHdr : List InstallMessage :=
    if other_apps.isEmpty then [] else [.phaseStart "Additional Tools"]
  let oRes := runLoop (otherStep env total) cRes.1 other_apps
  (oRes.1.summary, fRes.2.1 ++ cRes.2.1 ++ oRes.2.1,
   fHdr ++ fRes.2.2 ++ cHdr ++ cRes.2.2 ++ oHdr ++ oRes.2.2 ++
     [.done oRes.1.summary.succeeded.length oRes.1.summary.failed.length
        oRes.1.summary.skipped.length])

/-- Rust `run_install` — the full installation sequence: Homebrew
bootstrap (fatal on failure), then the three batches, then `Done`.
Returns the summary, the spawns performed, and the messages sent, in
order. -/
def run_install (env : Env) (apps : List App) :
    InstallSummary × List Spawn × List InstallMessage :=
  let total := apps.length
  let bootHdr : List InstallMessage := [.phaseStart "Homebrew Bootstrap"]
  if env.hasHomebrew then
    let updHdr : List InstallMessage := [.log "[BREW] Homebrew found — updating..."]
    let (usp, ums, _) := run_command env "brew" ["update"]
    let (summary, bsp, bms) := runBatches env apps total
    (summary, usp ++ bsp, bootHdr ++ updHdr ++ ums ++ bms)
  else
    let nfHdr : List InstallMessage :=
      [.log "[BREW] Homebrew not found — installing..."]
    let (hsp, hms, hres) := bootstrap_homebrew env
    match hres with
    | .ok () =>
        let okHdr : List InstallMessage :=
          [.log "[BREW] Homebrew installed successfully"]
        let (summary, bsp, bms) := runBatches env apps total
        (summary, hsp ++ bsp, bootHdr ++ nfHdr ++ hms ++ okHdr ++ bms)
    | .error e =>
        (InstallSummary.default, hsp,
         bootHdr ++ nfHdr ++ hms ++ [.fatalError s!"Failed to install Homebrew: {e}"])

/-! ## Interactive loop (`main.rs`)

The `App` struct is modelled by the fields the install protocol and the
input handlers touch.  Purely visual state (matrix rain, spinner,
typewriters) is omitted; the boot sequence is reduced to its `complete`
flag, which is all `handle_key`/`tick` read or write of it.  The
floating-point `install_progress` percentage is display-only state derived
from `install_completed`/`install_total` and is not modelled (floating
point).  `install_receiver`/`install_thread` are modelled by presence
flags; whether the background worker has actually finished is an input of
`install_tick` (it is read through the non-blocking `is_finished()`). -/

structure AppModel where
  wizard : WizardState
  boot_sequence_complete : Bool
  should_quit : Bool
  install_log : List String
  install_total : Nat
  install_completed : Nat
  install_succeeded : Nat
  install_failed : Nat
  install_skipped : Nat
  current_package : Option String
  is_installing : Bool
  has_receiver : Bool
  has_thread : Bool
  error_message : Option String
deriving DecidableEq

/-- Subset of `crossterm::event::KeyCode` the handlers match on;
`other` stands for every remaining variant (all fall into catch-all
branches). -/
inductive KeyCode where
  | tab | backTab | up | down | left | right | enter | esc | backspace
  | char (c : Char)
  | other
deriving DecidableEq, Repr

/-- Categories listed in the DevTools phase handlers of `main.rs`. -/
def devtoolsCategories : List Category :=
  [.language, .editor, .git, .container, .cloud]

/-- Rust `App::get_current_list_len`.  The outer `Option` is `none` exactly
when the source would panic on an out-of-range slice index (it never is:
the category lists are non-empty and indexed modulo their length). -/
def get_current_list_len (catalog : List App) (m : AppModel) : Option Nat :=
  match m.wizard.phase with
  | .devTools =>
      (devtoolsCategories.get?
        (m.wizard.scroll_offset % devtoolsCategories.length)).map
        fun cat => (apps_by_category catalog cat).length
  | .apps =>
      (Category.all.get? (m.wizard.scroll_offset % Category.all.length)).map
        fun cat => (apps_by_category catalog cat).length
  | _ => some 0

/-- Rust `App::get_current_app_id`.  The outer `Option` models
panic-freedom of the slice indexing; the inner `Option` is the source's
`Option<String>` (`.get(cursor_position)` may miss). -/
def get_current_app_id (catalog : List App) (m : AppModel) :
    Option (Option String) :=
  match m.wizard.phase with
  | .devTools =>
      (devtoolsCategories.get?
        (m.wizard.scroll_offset % devtoolsCategories.length)).map
        fun cat =>
          ((apps_by_category catalog cat).get? m.wizard.cursor_position).map
            (·.id)
  | .apps =>
      (Category.all.get? (m.wizard.scroll_offset % Category.all.length)).map
        fun cat =>
          ((apps_by_category catalog cat).get? m.wizard.cursor_position).map
            (·.id)
  | _ => some none

/-- Rust `App::toggle_current_app`. -/
def toggle_current_app (catalog : List App) (m : AppModel) :
    Option AppModel :=
  (get_current_app_id catalog m).map fun
    | some id => { m with wizard := m.wizard.toggle_app id }
    | none => m

/-- Rust `App::select_all_in_category` — insert every id of the current
DevTools category. -/
def select_all_in_category (catalog : List App) (m : AppModel) :
    Option AppModel :=
  (devtoolsCategories.get?
    (m.wizard.scroll_offset % devtoolsCategories.length)).map
    fun cat =>
      { m with wizard :=
          { m.wizard with selected_apps :=
              m.wizard.selected_apps ∪
                ((apps_by_category catalog cat).map (·.id)).toFinset } }

/-- Rust `App::deselect_all_in_category` — remove every id of the current
DevTools category. -/
def deselect_all_in_category (catalog : List App) (m : AppModel) :
    Option AppModel :=
  (devtoolsCategories.get?
    (m.wizard.scroll_offset % devtoolsCategories.length)).map
    fun cat =>
      { m with wizard :=
          { m.wizard with selected_apps :=
              m.wizard.selected_apps \
                ((apps_by_category catalog cat).map (·.id)).toFinset } }

/-- Rust `App::handle_identity_input`.  `checked_sub(1).unwrap_or(k)` is
written out as an explicit zero test. -/
def handle_identity_input (m : AppModel) (key : KeyCode) : Option AppModel :=
  match key with
  | .tab | .down =>
      some { m with wizard :=
        { m.wizard with input_field := (m.wizard.input_field + 1) % 4 } }
  | .backTab | .up =>
      some { m with wizard :=
        { m.wizard with input_field :=
            if m.wizard.input_field = 0 then 3 else m.wizard.input_field - 1 } }
  | .backspace =>
      match m.wizard.input_field with
      | 0 => some { m with wizard := { m.wizard with identity :=
          { m.wizard.identity with name := m.wizard.identity.name.dropRight 1 } } }
      | 1 => some { m with wizard := { m.wizard with identity :=
          { m.wizard.identity with email := m.wizard.identity.email.dropRight 1 } } }
      | 2 => some { m with wizard := { m.wizard with identity :=
          { m.wizard.identity with github_username :=
              m.wizard.identity.github_username.dropRight 1 } } }
      | _ => some m
  | .left | .right =>
      if m.wizard.input_field = 3 then
        let types := SetupType.all
        let current :=
          (types.findIdx? (· = m.wizard.identity.setup_type)).getD 0
        let new_idx :=
          if key = .right then (current + 1) % types.length
          else if current = 0 then types.length - 1 else current - 1
        (types.get? new_idx).map fun t =>
          { m with wizard := { m.wizard with identity :=
              { m.wizard.identity with setup_type := t } } }
      else some m
  | .enter =>
      if m.wizard.input_field = 3 then
        some { m with wizard := (m.wizard.advance).1 }
      else
        some { m with wizard :=
          { m.wizard with input_field := (m.wizard.input_field + 1) % 4 } }
  | .esc => some { m with wizard := (m.wizard.go_back).1 }
  | .char c =>
      match m.wizard.input_field with
      | 0 => some { m with wizard := { m.wizard with identity :=
          { m.wizard.identity with name := m.wizard.identity.name.push c } } }
      | 1 => some { m with wizard := { m.wizard with identity :=
          { m.wizard.identity with email := m.wizard.identity.email.push c } } }
      | 2 => some { m with wizard := { m.wizard with identity :=
          { m.wizard.identity with github_username :=
              m.wizard.identity.github_username.push c } } }
      | _ => some m
  | _ => some m

/-- Rust `App::cycle_shell_option` — bidirectional value cycling for the
field selected by `cursor_position`. -/
def cycle_shell_option (m : AppModel) (forward : Bool) : Option AppModel :=
  match m.wizard.cursor_position with
  | 0 =>
      let opts := ShellChoice.all
      let current := (opts.findIdx? (· = m.wizard.shell_config.shell)).getD 0
      let new_idx :=
        if forward then (current + 1) % opts.length
        else if current = 0 then opts.length - 1 else current - 1
      (opts.get? new_idx).map fun o =>
        { m with wizard := { m.wizard with shell_config :=
            { m.wizard.shell_config with shell := o } } }
  | 1 =>
      let opts := PromptChoice.all
      let current := (opts.findIdx? (· = m.wizard.shell_config.prompt)).getD 0
      let new_idx :=
        if forward then (current + 1) % opts.length
        else if current = 0 then opts.length - 1 else current - 1
      (opts.get? new_idx).map fun o =>
        { m with wizard := { m.wizard with shell_config :=
            { m.wizard.shell_config with prompt := o } } }
  | 2 =>
      let opts := TerminalChoice.all
      let current :=
        (opts.findIdx? (· = m.wizard.shell_config.terminal)).getD 0
      let new_idx :=
        if forward then (current + 1) % opts.length
        else if current = 0 then opts.length - 1 else current - 1
      (opts.get? new_idx).map fun o =>
        { m with wizard := { m.wizard with shell_config :=
            { m.wizard.shell_config with terminal := o } } }
  | 3 =>
      let opts := MultiplexerChoice.all
      let current :=
        match m.wizard.shell_config.multiplexer with
        | some mux => (opts.findIdx? (· = mux)).getD 0
        | none => opts.length - 1
      let new_idx :=
        if forward then (current + 1) % opts.length
        else if current = 0 then opts.length - 1 else current - 1
      (opts.get? new_idx).map fun o =>
        { m with wizard := { m.wizard with shell_config :=
            { m.wizard.shell_config with multiplexer :=
                if o = MultiplexerChoice.none then Option.none else some o } } }
  | _ => some m

/-- Rust `App::handle_shell_input` — cursor movement clamps to
`[0, max_items)`; Left/Right cycle the highlighted value. -/
def handle_shell_input (m : AppModel) (key : KeyCode) : Option AppModel :=
  let max_items := 4
  match key with
  | .up =>
      some { m with wizard :=
        { m.wizard with cursor_position := m.wizard.cursor_position - 1 } }
  | .down =>
      some { m with wizard :=
        { m.wizard with cursor_position :=
            (min (m.wizard.cursor_position + 1) (max_items - 1)) } }
  | .left => cycle_shell_option m false
  | .right => cycle_shell_option m true
  | .enter => some { m with wizard := (m.wizard.advance).1 }
  | .esc => some { m with wizard := (m.wizard.go_back).1 }
  | .char c =>
      if c = 'k' then
        some { m with wizard :=
          { m.wizard with cursor_position := m.wizard.cursor_position - 1 } }
      else if c = 'j' then
        some { m with wizard :=
          { m.wizard with cursor_position :=
              (min (m.wizard.cursor_position + 1) (max_items - 1)) } }
      else if c = 'h' then cycle_shell_option m false
      else if c = 'l' then cycle_shell_option m true
      else some m
  | _ => some m

/-- Rust `App::handle_devtools_input`. -/
def handle_devtools_input (catalog : List App) (m : AppModel)
    (key : KeyCode) : Option AppModel :=
  match key with
  | .up =>
      some { m with wizard :=
        { m.wizard with cursor_position := m.wizard.cursor_position - 1 } }
  | .down =>
      (get_current_list_len catalog m).map fun mx =>
        { m with wizard :=
          { m.wizard with cursor_position :=
              (min (m.wizard.cursor_position + 1) (mx - 1)) } }
  | .tab =>
      some { m with wizard :=
        { m.wizard with
            scroll_offset :=
              (m.wizard.scroll_offset + 1) % devtoolsCategories.length,
            cursor_position := 0 } }
  | .enter => some { m with wizard := (m.wizard.advance).1 }
  | .esc => some { m with wizard := (m.wizard.go_back).1 }
  | .char c =>
      if c = 'k' then
        some { m with wizard :=
          { m.wizard with cursor_position := m.wizard.cursor_position - 1 } }
      else if c = 'j' then
        (get_current_list_len catalog m).map fun mx =>
          { m with wizard :=
            { m.wizard with cursor_position :=
                (min (m.wizard.cursor_position + 1) (mx - 1)) } }
      else if c = ' ' then toggle_current_app catalog m
      else if c = 'a' then select_all_in_category catalog m
      else if c = 'n' then deselect_all_in_category catalog m
      else some m
  | _ => some m

/-- Rust `App::handle_apps_input`. -/
def handle_apps_input (catalog : List App) (m : AppModel)
    (key : KeyCode) : Option AppModel :=
  match key with
  | .up =>
      some { m with wizard :=
        { m.wizard with cursor_position := m.wizard.cursor_position - 1 } }
  | .down =>
      (get_current_list_len catalog m).map fun mx =>
        { m with wizard :=
          { m.wizard with cursor_position :=
              (min (m.wizard.cursor_position + 1) (mx - 1)) } }
  | .tab =>
      some { m with wizard :=
        { m.wizard with
            scroll_offset := (m.wizard.scroll_offset + 1) % Category.all.length,
            cursor_position := 0 } }
  | .backTab =>
      some { m with wizard :=
        { m.wizard with
            scroll_offset :=
              if m.wizard.scroll_offset = 0 then Category.all.length - 1
              else m.wizard.scroll_offset - 1,
            cursor_position := 0 } }
  | .enter => some { m with wizard := (m.wizard.advance).1 }
  | .esc => some { m with wizard := (m.wizard.go_back).1 }
  | .char c =>
      if c = 'k' then
        some { m with wizard :=
          { m.wizard with cursor_position := m.wizard.cursor_position - 1 } }
      else if c = 'j' then
        (get_current_list_len catalog m).map fun mx =>
          { m with wizard :=
            { m.wizard with cursor_position :=
                (min (m.wizard.cursor_position + 1) (mx - 1)) } }
      else if c = ' ' then toggle_current_app catalog m
      else if c = 'd' then
        some { m with wizard :=
          { m.wizard with show_details := !m.wizard.show_details } }
      else some m
  | _ => some m

/-- Rust `App::start_installation` — reset counters, clear and seed the
log, snapshot the selection, hand it to a spawned worker (modelled by the
presence flags). -/
def start_installation (catalog : List App) (m : AppModel) : AppModel :=
  { m with
      is_installing := true,
      install_completed := 0,
      install_log := ["[INIT] Starting installation sequence..."],
      install_total := (m.wizard.get_selected_apps catalog).length,
      has_receiver := true,
      has_thread := true }

/-- Rust `App::handle_review_input`. -/
def handle_review_input (catalog : List App) (m : AppModel)
    (key : KeyCode) : AppModel :=
  match key with
  | .enter =>
      let m1 := start_installation catalog m
      { m1 with wizard := (m1.wizard.advance).1 }
  | .esc => { m with wizard := (m.wizard.go_back).1 }
  | .up =>
      { m with wizard :=
        { m.wizard with scroll_offset := m.wizard.scroll_offset - 1 } }
  | .down =>
      { m with wizard :=
        { m.wizard with scroll_offset := m.wizard.scroll_offset + 1 } }
  | .char c =>
      if c = 'y' then
        let m1 := start_installation catalog m
        { m1 with wizard := (m1.wizard.advance).1 }
      else if c = 'n' then { m with wizard := (m.wizard.go_back).1 }
      else if c = 'k' then
        { m with wizard :=
          { m.wizard with scroll_offset := m.wizard.scroll_offset - 1 } }
      else if c = 'j' then
        { m with wizard :=
          { m.wizard with scroll_offset := m.wizard.scroll_offset + 1 } }
      else m
  | _ => m

/-- Rust `App::handle_key` — global Ctrl-C (abort during install, quit
otherwise), then dispatch to the phase handler.  The result is `none`
exactly when the dispatched handler would panic (it never does). -/
def handle_key (catalog : List App) (m : AppModel) (ctrl : Bool)
    (key : KeyCode) : Option AppModel :=
  if ctrl ∧ key = .char 'c' then
    if m.is_installing ∧ m.wizard.phase = WizardPhase.install then
      some { m with
        has_receiver := false,
        is_installing := false,
        install_log :=
          m.install_log ++ ["[ABORT] Installation interrupted by user"],
        wizard := { m.wizard with phase := WizardPhase.complete } }
    else
      some { m with should_quit := true }
  else
    match m.wizard.phase with
    | .boot => some { m with boot_sequence_complete := true }
    | .identity => handle_identity_input m key
    | .shell => handle_shell_input m key
    | .devTools => handle_devtools_input catalog m key
    | .apps => handle_apps_input catalog m key
    | .review => some (handle_review_input catalog m key)
    | .install => some m
    | .complete =>
        match key with
        | .enter => some { m with should_quit := true }
        | .char c =>
            if c = 'q' then some { m with should_quit := true } else some m
        | _ => some m

/-- Decimal rendering of `duration_ms as f64 / 1000.0` with one fractional
digit, used by the `[OK]` log line.  (The source formats an `f64` with
`{:.1}`; the model truncates instead of rounding to nearest — the digits
are display-only and appear in no claim.) -/
def fmtSecs1 (ms : Nat) : String :=
  s!"{ms / 1000}.{ms % 1000 / 100}"

/-- Folding one `InstallMessage` into the UI counters and log — the match
in `run_app`. -/
def apply_install_message (m : AppModel) (msg : InstallMessage) : AppModel :=
  match msg with
  | .phaseStart phase =>
      { m with install_log := m.install_log ++ [s!"[PHASE] ═══ {phase} ═══"] }
  | .packageStart name method =>
      { m with
          current_package := some name,
          install_log := m.install_log ++ [s!"[INSTALL] {name} ({method})"] }
  | .packageSuccess name duration_ms =>
      { m with
          current_package := none,
          install_log :=
            m.install_log ++ [s!"[OK] {name} ({fmtSecs1 duration_ms}s)"],
          install_completed := m.install_completed + 1,
          install_succeeded := m.install_succeeded + 1 }
  | .packageSkipped name reason =>
      { m with
          current_package := none,
          install_log := m.install_log ++ [s!"[SKIP] {name} — {reason}"],
          install_completed := m.install_completed + 1,
          install_skipped := m.install_skipped + 1 }
  | .packageFailed name error =>
      { m with
          current_package := none,
          install_log := m.install_log ++ [s!"[FAIL] {name} — {error}"],
          install_completed := m.install_completed + 1,
          install_failed := m.install_failed + 1 }
  | .log line => { m with install_log := m.install_log ++ [line] }
  | .progress completed total =>
      { m with install_completed := completed, install_total := total }
  | .done s f k =>
      { m with install_log :=
          m.install_log ++ [s!"[DONE] {s} succeeded, {f} failed, {k} skipped"] }
  | .fatalError err =>
      { m with
          install_log := m.install_log ++ [s!"[FATAL] {err}"],
          error_message := some err }

/-- Steps 5 and 6 of one `run_app` iteration: when installing and in the
Install phase, drain the pending channel messages (if the receiver is
still held) and then run the non-blocking worker-completion check.
`msgs` are the messages currently available on the channel;
`thread_finished` is what `JoinHandle::is_finished()` would answer. -/
def install_tick (m : AppModel) (msgs : List InstallMessage)
    (thread_finished : Bool) : AppModel :=
  if m.is_installing ∧ m.wizard.phase = WizardPhase.install then
    let m1 := if m.has_receiver then msgs.foldl apply_install_message m else m
    let thread_done := m1.has_thread && thread_finished
    if thread_done then
      { m1 with
          has_thread := false,
          has_receiver := false,
          is_installing := false,
          install_log := m1.install_log ++ ["[COMPLETE] Installation finished!"],
          wizard := (m1.wizard.advance).1 }
    else m1
  else m

/-! ## Event classification -/

/-- Item-started events. -/
def InstallMessage.isStart : InstallMessage → Bool
  | .packageStart _ _ => true
  | _ => false

/-- Item-terminal events: succeeded, skipped or failed. -/
def InstallMessage.isTerminal : InstallMessage → Bool
  | .packageSuccess _ _ => true
  | .packageSkipped _ _ => true
  | .packageFailed _ _ => true
  | _ => false

/-- Item-level events: started plus the three terminals. -/
def InstallMessage.isItemEvent : InstallMessage → Bool
  | .packageStart _ _ => true
  | .packageSuccess _ _ => true
  | .packageSkipped _ _ => true
  | .packageFailed _ _ => true
  | _ => false

/-- Skipped events. -/
def InstallMessage.isSkippedEvent : InstallMessage → Bool
  | .packageSkipped _ _ => true
  | _ => false

/-- Failed events. -/
def InstallMessage.isFailedEvent : InstallMessage → Bool
  | .packageFailed _ _ => true
  | _ => false

/-- Done-summary events. -/
def InstallMessage.isDone : InstallMessage → Bool
  | .done _ _ _ => true
  | _ => false

/-- Fatal-error events. -/
def InstallMessage.isFatal : InstallMessage → Bool
  | .fatalError _ => true
  | _ => false

/-- Log events. -/
def InstallMessage.isLog : InstallMessage → Bool
  | .log _ => true
  | _ => false

/-- Progress events. -/
def InstallMessage.isProgress : InstallMessage → Bool
  | .progress _ _ => true
  | _ => false

/-- Phase-banner events. -/
def InstallMessage.isPhaseStart : InstallMessage → Bool
  | .phaseStart _ => true
  | _ => false

/-- The item name carried by an item-level event. -/
def InstallMessage.nameOf : InstallMessage → Option String
  | .packageStart n _ => some n
  | .packageSuccess n _ => some n
  | .packageSkipped n _ => some n
  | .packageFailed n _ => some n
  | _ => none

/-- Strict precedence inside an event list: every element satisfying `p`
occurs at a strictly smaller index than every element satisfying `q`. -/
def Precedes (p q : InstallMessage → Prop) (l : List InstallMessage) : Prop :=
  ∀ i j (hi : i < l.length) (hj : j < l.length),
    p (l.get ⟨i, hi⟩) → q (l.get ⟨j, hj⟩) → i < j

/-! ## Sample states used by witnesses and counterexamples -/

/-- Environment in which every spawn runs and succeeds with empty output;
in particular every `brew list` query reports the package as installed. -/
def envAllOk : Env :=
  { hasHomebrew := true
    run := fun _ _ => .ran ⟨true, "exit status: 0", "", ""⟩ }

/-- Environment without Homebrew in which every spawn fails. -/
def envBootFail : Env :=
  { hasHomebrew := false
    run := fun _ _ =>
      .ran ⟨false, "exit status: 1", "", "curl: (7) could not connect"⟩ }

/-- Environment in which `cargo` fails with a stderr ending in two
newlines and every other spawn succeeds with empty output. -/
def envStderrTrailing : Env :=
  { hasHomebrew := true
    run := fun program _ =>
      if program = "cargo" then .ran ⟨false, "exit status: 1", "", "error\n\n"⟩
      else .ran ⟨true, "exit status: 0", "", ""⟩ }

/-- A Homebrew-formula catalog entry. -/
def appRipgrep : App := ⟨"ripgrep", "ripgrep", Category.search, .brew "ripgrep"⟩

/-- A cargo catalog entry. -/
def appZoxide : App := ⟨"zoxide", "zoxide", Category.search, .cargo "zoxide"⟩

/-- A Homebrew-cask catalog entry. -/
def appRectangle : App :=
  ⟨"rectangle", "Rectangle", Category.search, .brewCask "rectangle"⟩

/-- A script-mechanism catalog entry. -/
def appUv : App :=
  ⟨"uv", "uv", Category.search, .script "https://astral.sh/uv/install.sh"⟩

/-- Environment with Homebrew present in which every shell (`/bin/bash`)
invocation fails with whitespace-padded stderr and every other spawn
succeeds with empty output. -/
def envShellFail : Env :=
  { hasHomebrew := true
    run := fun program _ =>
      if program = "/bin/bash" then
        .ran ⟨false, "exit status: 127", "", " boom \n"⟩
      else .ran ⟨true, "exit status: 0", "", ""⟩ }

/-- A concrete wizard state (Review phase, nonzero cursor/scroll). -/
def sampleWizard : WizardState :=
  { phase := WizardPhase.review
    identity := ⟨"Ada", "ada@example.com", "ada", SetupType.personal⟩
    shell_config := ⟨ShellChoice.zsh, PromptChoice.starship,
      TerminalChoice.default, some MultiplexerChoice.tmux⟩
    selected_apps := {"ripgrep"}
    cursor_position := 3
    scroll_offset := 7
    input_field := 1
    show_details := true }

/-! ## Theorems -/

/-- C9: toggling an app id twice restores the selection set's membership of
that id, and a single toggle flips its membership. -/
theorem toggle_app_round_trip (s : WizardState) (app_id : String) :
    (((s.toggle_app app_id).toggle_app app_id).is_app_selected app_id ↔
      s.is_app_selected app_id) ∧
    ((s.toggle_app app_id).is_app_selected app_id ↔
      ¬ s.is_app_selected app_id) := by
  unfold WizardState.toggle_app WizardState.is_app_selected
  by_cases h : app_id ∈ s.selected_apps <;>
    simp [h, Finset.mem_erase, Finset.mem_insert]

/-- C6: `advance` moves to the successor phase, zeroing cursor and scroll,
and returns true exactly when a successor exists (no-op returning false at
Complete); `go_back` moves to the predecessor, zeroing cursor and scroll,
and returns true exactly when a predecessor exists and either it is not
Boot or the current phase is Identity; `go_back` at Boot returns false. -/
theorem advance_go_back_spec (s : WizardState) :
    (∀ p, s.phase.next = some p →
      s.advance =
        ({ s with phase := p, cursor_position := 0, scroll_offset := 0 }, true)) ∧
    (s.phase.next = none → s.advance = (s, false)) ∧
    (s.phase = WizardPhase.complete → s.advance = (s, false)) ∧
    ((s.go_back).2 = true ↔
      ∃ q, s.phase.prev = some q ∧
        (q ≠ WizardPhase.boot ∨ s.phase = WizardPhase.identity)) ∧
    (∀ q, s.phase.prev = some q →
      (q ≠ WizardPhase.boot ∨ s.phase = WizardPhase.identity) →
      s.go_back =
        ({ s with phase := q, cursor_position := 0, scroll_offset := 0 }, true)) ∧
    (s.phase = WizardPhase.boot → s.go_back = (s, false)) := by
  refine ⟨?_, ?_, ?_, ?_, ?_, ?_⟩
  · intro p hp
    simp [WizardState.advance, hp]
  · intro h
    simp [WizardState.advance, h]
  · intro h
    have hn : s.phase.next = none := by rw [h]; rfl
    simp [WizardState.advance, hn]
  · constructor
    · intro h
      rcases hq : s.phase.prev with _ | q
      · simp [WizardState.go_back, hq] at h
      · refine ⟨q, rfl, ?_⟩
        by_contra hc
        simp [WizardState.go_back, hq, hc] at h
    · rintro ⟨q, hq, hcond⟩
      simp [WizardState.go_back, hq, hcond]
  · intro q hq hcond
    simp [WizardState.go_back, hq, hcond]
  · intro h
    have hp : s.phase.prev = none := by rw [h]; rfl
    simp [WizardState.go_back, hp]

/-- Witness for C6 at concrete inputs: advancing from Review reaches
Install with reset cursor and scroll, and going back at Boot fails. -/
theorem advance_go_back_spec_witness :
    sampleWizard.advance =
      ({ sampleWizard with
          phase := WizardPhase.install, cursor_position := 0,
          scroll_offset := 0 }, true) ∧
    ({ sampleWizard with phase := WizardPhase.boot }).go_back =
      ({ sampleWizard with phase := WizardPhase.boot }, false) :=
  ⟨(advance_go_back_spec sampleWizard).1 WizardPhase.install rfl,
   ((advance_go_back_spec { sampleWizard with phase := WizardPhase.boot }).2.2.2.2.2) rfl⟩

/-- A concrete application state: Shell phase, cursor at the first field,
no install running. -/
def sampleShellApp : AppModel :=
  { wizard := { sampleWizard with phase := WizardPhase.shell, cursor_position := 0 }
    boot_sequence_complete := true
    should_quit := false
    install_log := []
    install_total := 0
    install_completed := 0
    install_succeeded := 0
    install_failed := 0
    install_skipped := 0
    current_package := none
    is_installing := false
    has_receiver := false
    has_thread := false
    error_message := none }

/-- A concrete application state: Install phase, install running. -/
def sampleInstallApp : AppModel :=
  { sampleShellApp with
      wizard := { sampleWizard with phase := WizardPhase.install }
      install_log := ["[INIT] Starting installation sequence..."]
      is_installing := true
      has_receiver := true
      has_thread := true }

/-- C7: a Ctrl-C abort in the Install phase with an active install
immediately clears `is_installing`, drops the receiver, appends the abort
marker to the log, and jumps the phase to Complete; any later
install-processing iteration (any pending messages, any answer of the
worker-finished check) leaves the state — in particular the phase —
unchanged. -/
theorem abort_during_install_spec (catalog : List App) (m : AppModel)
    (hph : m.wizard.phase = WizardPhase.install)
    (hinst : m.is_installing = true) :
    ∃ m1, handle_key catalog m true (KeyCode.char 'c') = some m1 ∧
      m1.is_installing = false ∧
      m1.wizard.phase = WizardPhase.complete ∧
      m1.has_receiver = false ∧
      m1.install_log =
        m.install_log ++ ["[ABORT] Installation interrupted by user"] ∧
      ∀ msgs thread_finished, install_tick m1 msgs thread_finished = m1 := by
  refine ⟨{ m with
      has_receiver := false
      is_installing := false
      install_log :=
        m.install_log ++ ["[ABORT] Installation interrupted by user"]
      wizard := { m.wizard with phase := WizardPhase.complete } },
    ?_, rfl, rfl, rfl, rfl, ?_⟩
  · simp [handle_key, hinst, hph]
  · intro msgs thread_finished
    simp [install_tick]

/-- Witness for C7 at a concrete state. -/
theorem abort_during_install_spec_witness :
    ∃ m1, handle_key [] sampleInstallApp true (KeyCode.char 'c') = some m1 ∧
      m1.is_installing = false ∧
      m1.wizard.phase = WizardPhase.complete ∧
      m1.has_receiver = false ∧
      m1.install_log =
        sampleInstallApp.install_log ++
          ["[ABORT] Installation interrupted by user"] ∧
      ∀ msgs thread_finished, install_tick m1 msgs thread_finished = m1 :=
  abort_during_install_spec [] sampleInstallApp rfl rfl

/-- The messages sent by `bootstrap_homebrew` are exactly the downloading
log line, whatever the outcome. -/
theorem bootstrap_homebrew_msgs (env : Env) :
    (bootstrap_homebrew env).2.1 =
      [.log "[BREW] Downloading Homebrew installer..."] := by
  unfold bootstrap_homebrew
  rcases h : env.run "/bin/bash" ["-c", brewInstallScript] with e | out
  · simp
  · simp only
    split <;> rfl

/-- C4: when Homebrew is absent and its bootstrap fails, the run emits
exactly one fatal-error event and no item-level event at all, and the
returned summary has all three collections empty. -/
theorem fatal_bootstrap_spec (env : Env) (apps : List App)
    (hb : env.hasHomebrew = false)
    (hfail : (bootstrap_homebrew env).2.2 ≠ Except.ok ()) :
    (run_install env apps).1 = InstallSummary.default ∧
    ((run_install env apps).2.2.filter (fun x => x.isFatal)).length = 1 ∧
    ∀ x ∈ (run_install env apps).2.2, x.isItemEvent = false := by
  have hmsgs := bootstrap_homebrew_msgs env
  rcases hbe : bootstrap_homebrew env with ⟨sp1, ms1, res1⟩
  rw [hbe] at hmsgs
  simp only at hmsgs
  rcases res1 with e | u
  · subst hmsgs
    refine ⟨?_, ?_, ?_⟩ <;>
      simp [run_install, hb, hbe, List.filter, InstallMessage.isFatal,
        InstallMessage.isItemEvent]
  · cases u
    rw [hbe] at hfail
    simp at hfail

/-- Witness for C4 at a concrete environment. -/
theorem fatal_bootstrap_spec_witness :
    (run_install envBootFail [appRipgrep]).1 = InstallSummary.default ∧
    ((run_install envBootFail [appRipgrep]).2.2.filter
      (fun x => x.isFatal)).length = 1 ∧
    ∀ x ∈ (run_install envBootFail [appRipgrep]).2.2, x.isItemEvent = false :=
  fatal_bootstrap_spec envBootFail [appRipgrep] rfl (by
    intro h
    simp [bootstrap_homebrew, envBootFail] at h)

/-- C1 counterexample: in a run where the already-satisfied predicate of
the single Homebrew item holds, the executor still emits a started event
for that item (`PackageStart` is sent before the `is_brew_installed`
check), contradicting the claim that no started event is emitted. -/
theorem satisfied_item_still_emits_start :
    (is_brew_installed envAllOk "ripgrep").2 = true ∧
    InstallMessage.packageStart "ripgrep" "brew install ripgrep" ∈
      (run_install envAllOk [appRipgrep]).2.2 ∧
    InstallMessage.packageSkipped "ripgrep" "Already installed" ∈
      (run_install envAllOk [appRipgrep]).2.2 := by decide

/-- Modelled from the spec's words ("the last non-empty line of that
process's standard-error stream"): the last non-empty line of a stream. -/
def lastNonEmptyLine (s : String) : Option String :=
  ((rustLines s).filter (fun l => !l.isEmpty)).getLast?

/-- C5 counterexample: with stderr `"error\n\n"` (non-empty stream whose
last non-empty line is `"error"`), the failed event carries the empty
string — `stderr.lines().last()` takes the last line, not the last
non-empty line — so the emitted error is neither the last non-empty line
nor the generic exit-code form. -/
theorem failed_error_not_last_nonempty_line :
    InstallMessage.packageFailed "zoxide" "" ∈
      (run_install envStderrTrailing [appZoxide]).2.2 ∧
    lastNonEmptyLine "error\n\n" = some "error" ∧
    ("" : String) ≠ "error" ∧
    ("error\n\n" : String).isEmpty = false ∧
    ∀ x ∈ (run_install envStderrTrailing [appZoxide]).2.2,
      x.isFailedEvent = true → x = InstallMessage.packageFailed "zoxide" "" := by
  decide

/-- C8 counterexample: in the Shell phase with the cursor on the first
field, the Up key leaves the cursor at 0 (`saturating_sub`), not at 3 as
modular wraparound over the 4 fields would require — field navigation in
this handler is clamped, not cyclic. -/
theorem shell_nav_no_wraparound :
    (handle_key [] sampleShellApp false KeyCode.up).map
      (fun m1 => m1.wizard.cursor_position) = some 0 ∧
    (0 : Nat) ≠ (4 - 1) % 4 := by decide

/-! ## Structure of the executor's event stream

The remaining claims quantify over whole runs; the lemmas below
characterise the messages of the process runners, of one batch-loop
iteration, of a batch, and of `run_install` itself. -/

/-- Every message sent by `run_command` is a log line. -/
theorem run_command_msgs_log (env : Env) (program : String)
    (args : List String) :
    ∀ x ∈ (run_command env program args).2.1, x.isLog = true := by
  intro x hx
  unfold run_command at hx
  rcases h : env.run program args with e | out <;> simp [h] at hx
  · subst hx; rfl
  · rcases hx with hx | ⟨l, -, hx⟩ | ⟨l, -, hx⟩ <;> subst hx <;> rfl

/-- Every message sent by `install_via_script` is a log line. -/
theorem install_via_script_msgs_log (env : Env) (url : String) :
    ∀ x ∈ (install_via_script env url).2.1, x.isLog = true := by
  intro x hx
  unfold install_via_script at hx
  rcases h : env.run "/bin/bash" ["-c", s!"curl -fsSL {url} | sh"] with e | out <;>
    simp only [h] at hx
  · simp at hx; subst hx; rfl
  · split at hx <;> simp at hx <;> (subst hx; rfl)

/-- Every message sent by `run_shell_command` is a log line. -/
theorem run_shell_command_msgs_log (env : Env) (cmd : String) :
    ∀ x ∈ (run_shell_command env cmd).2.1, x.isLog = true := by
  intro x hx
  unfold run_shell_command at hx
  rcases h : env.run "/bin/bash" ["-c", cmd] with e | out <;> simp only [h] at hx
  · simp at hx; subst hx; rfl
  · split at hx <;> simp at hx <;> (subst hx; rfl)

/-- Every message sent by `install_app` is a log line. -/
theorem install_app_msgs_log (env : Env) (app : App) :
    ∀ x ∈ (install_app env app).2.1, x.isLog = true := by
  unfold install_app
  rcases app with ⟨i, n, c, method⟩
  cases method <;> simp only <;>
    first
      | exact run_command_msgs_log env _ _
      | exact install_via_script_msgs_log env _
      | exact run_shell_command_msgs_log env _

/-- A log line is neither an item event nor any of the control events. -/
theorem log_flavour (x : InstallMessage) (h : x.isLog = true) :
    x.isStart = false ∧ x.isTerminal = false ∧ x.isDone = false ∧
    x.isPhaseStart = false ∧ x.isFatal = false ∧ x.isProgress = false ∧
    x.nameOf = none := by
  cases x <;> simp_all [InstallMessage.isLog, InstallMessage.isStart,
    InstallMessage.isTerminal, InstallMessage.isDone,
    InstallMessage.isPhaseStart, InstallMessage.isFatal,
    InstallMessage.isProgress, InstallMessage.nameOf]

/-- A log line is not an item-level event. -/
theorem isItemEvent_false_of_isLog (x : InstallMessage) (h : x.isLog = true) :
    x.isItemEvent = false := by
  cases x <;> simp_all [InstallMessage.isLog, InstallMessage.isItemEvent]

/-- A terminal event is none of the other event kinds and carries exactly
one name. -/
theorem terminal_flavour (x : InstallMessage) (h : x.isTerminal = true) :
    x.isStart = false ∧ x.isDone = false ∧ x.isPhaseStart = false ∧
    x.isFatal = false ∧ x.isProgress = false ∧ (x.nameOf).isSome = true := by
  cases x <;> simp_all [InstallMessage.isTerminal, InstallMessage.isStart,
    InstallMessage.isDone, InstallMessage.isPhaseStart,
    InstallMessage.isFatal, InstallMessage.isProgress, InstallMessage.nameOf]

/-- Shape of the event segment of one processed item: it opens with the
item's started event and contains no other started event; it contains no
done/phase/fatal event and names no other item; it contains a terminal for
the item; and its progress events are exactly one report at count
`c + 1`. -/
def ItemMsgsSpec (name : String) (c total : Nat)
    (msgs : List InstallMessage) : Prop :=
  (∃ meth rest, msgs = InstallMessage.packageStart name meth :: rest ∧
      ∀ x ∈ rest, x.isStart = false) ∧
  (∀ x ∈ msgs, x.isDone = false ∧ x.isPhaseStart = false ∧ x.isFatal = false ∧
      ∀ n, x.nameOf = some n → n = name) ∧
  (∃ t ∈ msgs, t.isTerminal = true ∧ t.nameOf = some name) ∧
  msgs.filter (fun x => x.isProgress) =
    [InstallMessage.progress (c + 1) total]

/-- Every item segment produced by the batch loops has the form
`started :: logs ++ [terminal, progress]`; this establishes its
`ItemMsgsSpec`. -/
theorem itemMsgsSpec_of_shape (name meth : String)
    (ims : List InstallMessage) (him : ∀ x ∈ ims, x.isLog = true)
    (term : InstallMessage) (c total : Nat)
    (ht : term.isTerminal = true) (hn : term.nameOf = some name) :
    ItemMsgsSpec name c total
      (InstallMessage.packageStart name meth ::
        (ims ++ [term, InstallMessage.progress (c + 1) total])) := by
  obtain ⟨hts, htd, htp, htf, htpr, -⟩ := terminal_flavour term ht
  refine ⟨⟨meth, _, rfl, ?_⟩, ?_, ?_, ?_⟩
  · intro x hx
    rcases List.mem_append.1 hx with hx | hx
    · exact (log_flavour x (him x hx)).1
    · rcases hx with _ | ⟨_, hx⟩
      · exact hts
      · rcases hx with _ | ⟨_, hx⟩
        · rfl
        · cases hx
  · intro x hx
    rcases hx with _ | ⟨_, hx⟩
    · exact ⟨rfl, rfl, rfl, fun n h => by
        simp [InstallMessage.nameOf] at h; exact h.symm⟩
    · rcases List.mem_append.1 hx with hx | hx
      · obtain ⟨-, -, h3, h4, h5, -, h7⟩ := log_flavour x (him x hx)
        exact ⟨h3, h4, h5, fun n h => by rw [h7] at h; cases h⟩
      · rcases hx with _ | ⟨_, hx⟩
        · exact ⟨htd, htp, htf, fun n h => by
            rw [hn] at h; cases h; rfl⟩
        · rcases hx with _ | ⟨_, hx⟩
          · exact ⟨rfl, rfl, rfl, fun n h => by cases h⟩
          · cases hx
  · exact ⟨term, by simp, ht, hn⟩
  · have h1 : (InstallMessage.packageStart name meth).isProgress = false := rfl
    have h3 : (InstallMessage.progress (c + 1) total).isProgress = true := rfl
    have h2 : ims.filter (fun x => x.isProgress) = [] :=
      List.filter_eq_nil_iff.2 (fun x hx => by
        simp [(log_flavour x (him x hx)).2.2.2.2.2.1])
    simp only [List.filter_cons, List.filter_append, h1, h2, h3, htpr]
    simp

/-- All facts about one iteration of a batch loop: its messages satisfy
`ItemMsgsSpec`, the `completed` counter grows by one, and exactly one
summary collection is extended by this item (skips always carrying the
reason "Already installed"). -/
def ItemStepSpec (total : Nat)
    (step : RunState → App → RunState × List Spawn × List InstallMessage)
    (st : RunState) (app : App) : Prop :=
  ItemMsgsSpec app.name st.completed total (step st app).2.2 ∧
  (step st app).1.completed = st.completed + 1 ∧
  ((step st app).1.summary.succeeded = st.summary.succeeded ++ [app.name] ∧
     (step st app).1.summary.failed = st.summary.failed ∧
     (step st app).1.summary.skipped = st.summary.skipped ∨
   (∃ e, (step st app).1.summary.failed = st.summary.failed ++ [(app.name, e)] ∧
     (step st app).1.summary.succeeded = st.summary.succeeded ∧
     (step st app).1.summary.skipped = st.summary.skipped) ∨
   ((step st app).1.summary.skipped =
       st.summary.skipped ++ [(app.name, "Already installed")] ∧
     (step st app).1.summary.succeeded = st.summary.succeeded ∧
     (step st app).1.summary.failed = st.summary.failed))

/-- The formula-batch iteration satisfies the step specification for brew
directives. -/
theorem formulaStep_spec (env : Env) (total : Nat) (st : RunState)
    (app : App) (pkg : String) (hm : app.install_method = .brew pkg) :
    ItemStepSpec total (formulaStep env total) st app := by
  rcases hq : is_brew_installed env pkg with ⟨qs, b⟩
  cases b
  · rcases hr : run_command env "brew" ["install", pkg] with ⟨isp, ims, res⟩
    have hmsgs : ∀ x ∈ ims, x.isLog = true := by
      have h := run_command_msgs_log env "brew" ["install", pkg]
      rw [hr] at h; exact h
    rcases res with e | u
    · have he : formulaStep env total st app =
          ({ summary := { st.summary with
                failed := st.summary.failed ++ [(app.name, e)] },
              completed := st.completed + 1 },
            qs ++ isp,
            InstallMessage.packageStart app.name s!"brew install {pkg}" ::
              (ims ++ [InstallMessage.packageFailed app.name e,
                InstallMessage.progress (st.completed + 1) total])) := by
        simp [formulaStep, hm, hq, hr]
      refine ⟨?_, ?_, ?_⟩
      · rw [he]
        exact itemMsgsSpec_of_shape app.name _ ims hmsgs
          (InstallMessage.packageFailed app.name e) st.completed total rfl rfl
      · rw [he]
      · rw [he]
        exact Or.inr (Or.inl ⟨e, rfl, rfl, rfl⟩)
    · cases u
      have he : formulaStep env total st app =
          ({ summary := { st.summary with
                succeeded := st.summary.succeeded ++ [app.name] },
              completed := st.completed + 1 },
            qs ++ isp,
            InstallMessage.packageStart app.name s!"brew install {pkg}" ::
              (ims ++ [InstallMessage.packageSuccess app.name 0,
                InstallMessage.progress (st.completed + 1) total])) := by
        simp [formulaStep, hm, hq, hr]
      refine ⟨?_, ?_, ?_⟩
      · rw [he]
        exact itemMsgsSpec_of_shape app.name _ ims hmsgs
          (InstallMessage.packageSuccess app.name 0) st.completed total rfl rfl
      · rw [he]
      · rw [he]
        exact Or.inl ⟨rfl, rfl, rfl⟩
  · have he : formulaStep env total st app =
        ({ summary := { st.summary with
              skipped := st.summary.skipped ++ [(app.name, "Already installed")] },
            completed := st.completed + 1 },
          qs,
          [InstallMessage.packageStart app.name s!"brew install {pkg}",
           InstallMessage.packageSkipped app.name "Already installed",
           InstallMessage.progress (st.completed + 1) total]) := by
      simp [formulaStep, hm, hq]
    refine ⟨?_, ?_, ?_⟩
    · rw [he]
      exact itemMsgsSpec_of_shape app.name _ [] (by simp)
        (InstallMessage.packageSkipped app.name "Already installed")
        st.completed total rfl rfl
    · rw [he]
    · rw [he]
      exact Or.inr (Or.inr ⟨rfl, rfl, rfl⟩)

/-- The cask-batch iteration satisfies the step specification for cask
directives. -/
theorem caskStep_spec (env : Env) (total : Nat) (st : RunState)
    (app : App) (pkg : String) (hm : app.install_method = .brewCask pkg) :
    ItemStepSpec total (caskStep env total) st app := by
  rcases hq : is_brew_cask_installed env pkg with ⟨qs, b⟩
  cases b
  · rcases hr : run_command env "brew" ["install", "--cask", pkg] with ⟨isp, ims, res⟩
    have hmsgs : ∀ x ∈ ims, x.isLog = true := by
      have h := run_command_msgs_log env "brew" ["install", "--cask", pkg]
      rw [hr] at h; exact h
    rcases res with e | u
    · have he : caskStep env total st app =
          ({ summary := { st.summary with
                failed := st.summary.failed ++ [(app.name, e)] },
              completed := st.completed + 1 },
            qs ++ isp,
            InstallMessage.packageStart app.name s!"brew install --cask {pkg}" ::
              (ims ++ [InstallMessage.packageFailed app.name e,
                InstallMessage.progress (st.completed + 1) total])) := by
        simp [caskStep, hm, hq, hr]
      refine ⟨?_, ?_, ?_⟩
      · rw [he]
        exact itemMsgsSpec_of_shape app.name _ ims hmsgs
          (InstallMessage.packageFailed app.name e) st.completed total rfl rfl
      · rw [he]
      · rw [he]
        exact Or.inr (Or.inl ⟨e, rfl, rfl, rfl⟩)
    · cases u
      have he : caskStep env total st app =
          ({ summary := { st.summary with
                succeeded := st.summary.succeeded ++ [app.name] },
              completed := st.completed + 1 },
            qs ++ isp,
            InstallMessage.packageStart app.name s!"brew install --cask {pkg}" ::
              (ims ++ [InstallMessage.packageSuccess app.name 0,
                InstallMessage.progress (st.completed + 1) total])) := by
        simp [caskStep, hm, hq, hr]
      refine ⟨?_, ?_, ?_⟩
      · rw [he]
        exact itemMsgsSpec_of_shape app.name _ ims hmsgs
          (InstallMessage.packageSuccess app.name 0) st.completed total rfl rfl
      · rw [he]
      · rw [he]
        exact Or.inl ⟨rfl, rfl, rfl⟩
  · have he : caskStep env total st app =
        ({ summary := { st.summary with
              skipped := st.summary.skipped ++ [(app.name, "Already installed")] },
            completed := st.completed + 1 },
          qs,
          [InstallMessage.packageStart app.name s!"brew install --cask {pkg}",
           InstallMessage.packageSkipped app.name "Already installed",
           InstallMessage.progress (st.completed + 1) total]) := by
      simp [caskStep, hm, hq]
    refine ⟨?_, ?_, ?_⟩
    · rw [he]
      exact itemMsgsSpec_of_shape app.name _ [] (by simp)
        (InstallMessage.packageSkipped app.name "Already installed")
        st.completed total rfl rfl
    · rw [he]
    · rw [he]
      exact Or.inr (Or.inr ⟨rfl, rfl, rfl⟩)

/-- The catch-all iteration satisfies the step specification for every
directive (it performs no already-installed check). -/
theorem otherStep_spec (env : Env) (total : Nat) (st : RunState)
    (app : App) :
    ItemStepSpec total (otherStep env total) st app := by
  rcases hr : install_app env app with ⟨isp, ims, res⟩
  have hmsgs : ∀ x ∈ ims, x.isLog = true := by
    have h := install_app_msgs_log env app
    rw [hr] at h; exact h
  rcases res with e | u
  · have he : otherStep env total st app =
        ({ summary := { st.summary with
              failed := st.summary.failed ++ [(app.name, e)] },
            completed := st.completed + 1 },
          isp,
          InstallMessage.packageStart app.name app.install_method.command ::
            (ims ++ [InstallMessage.packageFailed app.name e,
              InstallMessage.progress (st.completed + 1) total])) := by
      simp [otherStep, hr]
    refine ⟨?_, ?_, ?_⟩
    · rw [he]
      exact itemMsgsSpec_of_shape app.name _ ims hmsgs
        (InstallMessage.packageFailed app.name e) st.completed total rfl rfl
    · rw [he]
    · rw [he]
      exact Or.inr (Or.inl ⟨e, rfl, rfl, rfl⟩)
  · cases u
    have he : otherStep env total st app =
        ({ summary := { st.summary with
              succeeded := st.summary.succeeded ++ [app.name] },
            completed := st.completed + 1 },
          isp,
          InstallMessage.packageStart app.name app.install_method.command ::
            (ims ++ [InstallMessage.packageSuccess app.name 0,
              InstallMessage.progress (st.completed + 1) total])) := by
      simp [otherStep, hr]
    refine ⟨?_, ?_, ?_⟩
    · rw [he]
      exact itemMsgsSpec_of_shape app.name _ ims hmsgs
        (InstallMessage.packageSuccess app.name 0) st.completed total rfl rfl
    · rw [he]
    · rw [he]
      exact Or.inl ⟨rfl, rfl, rfl⟩

/-! ## Precedence combinators -/

/-- A split of the list with no `q`-element on the left and no `p`-element
on the right forces every `p`-index below every `q`-index. -/
theorem precedes_of_split {p q : InstallMessage → Prop}
    {xs ys : List InstallMessage}
    (hxs : ∀ x ∈ xs, ¬ q x) (hys : ∀ y ∈ ys, ¬ p y) :
    Precedes p q (xs ++ ys) := by
  intro i j hi hj hp hq
  simp only [List.get_eq_getElem] at hp hq
  have hjlen : xs.length ≤ j := by
    by_contra hlt
    push_neg at hlt
    rw [List.getElem_append_left hlt] at hq
    exact hxs _ (List.getElem_mem hlt) hq
  have hilt : i < xs.length := by
    by_contra hge
    push_neg at hge
    rw [List.getElem_append_right hge] at hp
    exact hys _ (List.getElem_mem (by
      rw [List.length_append] at hi; omega)) hp
  omega

/-- Precedence is vacuous when no element satisfies `p`. -/
theorem precedes_of_no_left {p q : InstallMessage → Prop}
    {l : List InstallMessage} (h : ∀ x ∈ l, ¬ p x) : Precedes p q l := by
  intro i j hi hj hp _
  exact absurd hp (h _ (l.get_mem _ _))

/-- Precedence is vacuous when no element satisfies `q`. -/
theorem precedes_of_no_right {p q : InstallMessage → Prop}
    {l : List InstallMessage} (h : ∀ x ∈ l, ¬ q x) : Precedes p q l := by
  intro i j hi hj _ hq
  exact absurd hq (h _ (l.get_mem _ _))

/-! ## Batch-level lemmas -/

/-- Unfolding of one loop iteration. -/
theorem runLoop_cons
    (step : RunState → App → RunState × List Spawn × List InstallMessage)
    (st : RunState) (a : App) (batch : List App) :
    runLoop step st (a :: batch) =
      ((runLoop step (step st a).1 batch).1,
       (step st a).2.1 ++ (runLoop step (step st a).1 batch).2.1,
       (step st a).2.2 ++ (runLoop step (step st a).1 batch).2.2) := rfl

/-- The loop raises `completed` by the batch size. -/
theorem runLoop_completed (total : Nat)
    (step : RunState → App → RunState × List Spawn × List InstallMessage)
    (batch : List App) (st : RunState)
    (hspec : ∀ st1 a, a ∈ batch → ItemStepSpec total step st1 a) :
    (runLoop step st batch).1.completed = st.completed + batch.length := by
  induction batch generalizing st with
  | nil => simp [runLoop]
  | cons a rest ih =>
      rw [runLoop_cons]
      have h := (hspec st a (by simp)).2.1
      rw [ih ((step st a).1)
        (fun st1 b hb => hspec st1 b (List.mem_cons_of_mem _ hb)), h]
      simp [List.length_cons]
      omega

/-- The loop extends each summary collection; the extensions' sizes sum to
the batch size and every new skipped entry carries the reason
"Already installed". -/
theorem runLoop_summary (total : Nat)
    (step : RunState → App → RunState × List Spawn × List InstallMessage)
    (batch : List App) (st : RunState)
    (hspec : ∀ st1 a, a ∈ batch → ItemStepSpec total step st1 a) :
    ∃ s f k,
      (runLoop step st batch).1.summary.succeeded = st.summary.succeeded ++ s ∧
      (runLoop step st batch).1.summary.failed = st.summary.failed ++ f ∧
      (runLoop step st batch).1.summary.skipped = st.summary.skipped ++ k ∧
      s.length + f.length + k.length = batch.length ∧
      ∀ pr ∈ k, pr.2 = "Already installed" := by
  induction batch generalizing st with
  | nil => exact ⟨[], [], [], by simp [runLoop], by simp [runLoop],
      by simp [runLoop], by simp, by simp⟩
  | cons a rest ih =>
      obtain ⟨s, f, k, hs, hf, hk, hlen, hreason⟩ :=
        ih ((step st a).1)
          (fun st1 b hb => hspec st1 b (List.mem_cons_of_mem _ hb))
      rcases (hspec st a (by simp)).2.2 with ⟨h1, h2, h3⟩ | ⟨e, h1, h2, h3⟩ |
        ⟨h1, h2, h3⟩
      · refine ⟨a.name :: s, f, k, ?_, ?_, ?_, ?_, hreason⟩
        · rw [runLoop_cons]; simp [hs, h1]
        · rw [runLoop_cons]; simp [hf, h2]
        · rw [runLoop_cons]; simp [hk, h3]
        · simp; omega
      · refine ⟨s, (a.name, e) :: f, k, ?_, ?_, ?_, ?_, hreason⟩
        · rw [runLoop_cons]; simp [hs, h2]
        · rw [runLoop_cons]; simp [hf, h1]
        · rw [runLoop_cons]; simp [hk, h3]
        · simp; omega
      · refine ⟨s, f, (a.name, "Already installed") :: k, ?_, ?_, ?_, ?_, ?_⟩
        · rw [runLoop_cons]; simp [hs, h2]
        · rw [runLoop_cons]; simp [hf, h3]
        · rw [runLoop_cons]; simp [hk, h1]
        · simp; omega
        · intro pr hpr
          rcases List.mem_cons.1 hpr with rfl | hpr
          · rfl
          · exact hreason pr hpr

/-- Messages of a batch carry no done, phase or fatal event and name only
batch members. -/
theorem runLoop_flavour (total : Nat)
    (step : RunState → App → RunState × List Spawn × List InstallMessage)
    (batch : List App) (st : RunState)
    (hspec : ∀ st1 a, a ∈ batch → ItemStepSpec total step st1 a) :
    ∀ x ∈ (runLoop step st batch).2.2,
      x.isDone = false ∧ x.isPhaseStart = false ∧ x.isFatal = false ∧
      ∀ n, x.nameOf = some n → n ∈ batch.map (·.name) := by
  induction batch generalizing st with
  | nil => simp [runLoop]
  | cons a rest ih =>
      intro x hx
      rw [runLoop_cons] at hx
      simp only [List.mem_append] at hx
      rcases hx with hx | hx
      · obtain ⟨-, hflav, -, -⟩ := (hspec st a (by simp)).1
        obtain ⟨h1, h2, h3, h4⟩ := hflav x hx
        exact ⟨h1, h2, h3, fun n hn => by simp [h4 n hn]⟩
      · obtain ⟨h1, h2, h3, h4⟩ := ih ((step st a).1)
          (fun st1 b hb => hspec st1 b (List.mem_cons_of_mem _ hb)) x hx
        exact ⟨h1, h2, h3, fun n hn => by
          simp only [List.map_cons, List.mem_cons]
          exact Or.inr (h4 n hn)⟩

/-- The progress events of a batch are exactly one report per item, at
counts `st.completed + 1, …, st.completed + batch.length`. -/
theorem runLoop_progress (total : Nat)
    (step : RunState → App → RunState × List Spawn × List InstallMessage)
    (batch : List App) (st : RunState)
    (hspec : ∀ st1 a, a ∈ batch → ItemStepSpec total step st1 a) :
    (runLoop step st batch).2.2.filter (fun x => x.isProgress) =
      (List.range batch.length).map
        (fun i => InstallMessage.progress (st.completed + i + 1) total) := by
  induction batch generalizing st with
  | nil => simp [runLoop]
  | cons a rest ih =>
      rw [runLoop_cons]
      simp only [List.filter_append]
      obtain ⟨-, -, -, hprog⟩ := (hspec st a (by simp)).1
      rw [hprog, ih ((step st a).1)
        (fun st1 b hb => hspec st1 b (List.mem_cons_of_mem _ hb)),
        (hspec st a (by simp)).2.1]
      rw [List.length_cons, List.range_succ_eq_map, List.map_cons,
        List.map_map]
      simp only [List.singleton_append, Nat.add_zero]
      congr 1
      apply List.map_congr_left
      intro i _
      simp [Function.comp]
      omega

/-- For each batch member, the batch messages split into a part free of
terminals for that member (holding its started event) and a part free of
started events for it (holding a terminal for it). -/
theorem runLoop_split (total : Nat)
    (step : RunState → App → RunState × List Spawn × List InstallMessage)
    (batch : List App) (st : RunState)
    (hspec : ∀ st1 a, a ∈ batch → ItemStepSpec total step st1 a)
    (app : App) (happ : app ∈ batch)
    (hnodup : (batch.map (·.name)).Nodup) :
    ∃ xs ys,
      (runLoop step st batch).2.2 = xs ++ ys ∧
      (∀ x ∈ xs, ¬(x.isTerminal = true ∧ x.nameOf = some app.name)) ∧
      (∀ y ∈ ys, ¬(y.isStart = true ∧ y.nameOf = some app.name)) ∧
      (∃ meth, InstallMessage.packageStart app.name meth ∈ xs) ∧
      (∃ t ∈ ys, t.isTerminal = true ∧ t.nameOf = some app.name) := by
  induction batch generalizing st with
  | nil => cases happ
  | cons a rest ih =>
      rw [List.map_cons, List.nodup_cons] at hnodup
      rcases List.mem_cons.1 happ with rfl | happ
      · obtain ⟨⟨meth, restMsgs, hseg, hnostart⟩, hflav, ⟨t, htm, htt, htn⟩, -⟩ :=
          (hspec st app (by simp)).1
        have hrest := runLoop_flavour total step rest ((step st app).1)
          (fun st1 b hb => hspec st1 b (List.mem_cons_of_mem _ hb))
        refine ⟨[InstallMessage.packageStart app.name meth],
          restMsgs ++ (runLoop step (step st app).1 rest).2.2,
          ?_, ?_, ?_, ⟨meth, by simp⟩, ?_⟩
        · rw [runLoop_cons]
          simp only [hseg]
          simp
        · intro x hx
          rcases hx with _ | ⟨_, hx⟩
          · rintro ⟨hterm, -⟩
            simp [InstallMessage.isTerminal] at hterm
          · cases hx
        · intro y hy
          rcases List.mem_append.1 hy with hy | hy
          · rintro ⟨hstart, -⟩
            rw [hnostart y hy] at hstart
            cases hstart
          · rintro ⟨-, hname⟩
            obtain ⟨-, -, -, h4⟩ := hrest y hy
            exact hnodup.1 (h4 app.name hname)
        · refine ⟨t, ?_, htt, htn⟩
          rw [hseg] at htm
          rcases htm with _ | ⟨_, htm⟩
          · simp [InstallMessage.isTerminal] at htt
          · exact List.mem_append_left _ htm
      · obtain ⟨xs, ys, hsplit, hxs, hys, hstart, hterm⟩ :=
          ih ((step st a).1)
            (fun st1 b hb => hspec st1 b (List.mem_cons_of_mem _ hb))
            happ hnodup.2
        have hname : a.name ≠ app.name := by
          intro h
          exact hnodup.1 (h ▸ List.mem_map_of_mem (·.name) happ)
        refine ⟨(step st a).2.2 ++ xs, ys, ?_, ?_, hys,
          ⟨hstart.choose, List.mem_append_right _ hstart.choose_spec⟩, hterm⟩
        · rw [runLoop_cons, hsplit, List.append_assoc]
        · intro x hx
          rcases List.mem_append.1 hx with hx | hx
          · rintro ⟨-, hn⟩
            obtain ⟨-, hflav, -, -⟩ := (hspec st a (by simp)).1
            obtain ⟨-, -, -, h4⟩ := hflav x hx
            exact hname (h4 app.name hn).symm
          · exact hxs x hx

/-- A message emitted for a batch member by every possible loop state is in
the batch messages. -/
theorem runLoop_msg_mem
    (step : RunState → App → RunState × List Spawn × List InstallMessage)
    (batch : List App) (st : RunState) (app : App) (happ : app ∈ batch)
    (m : InstallMessage) (hm : ∀ st1, m ∈ (step st1 app).2.2) :
    m ∈ (runLoop step st batch).2.2 := by
  induction batch generalizing st with
  | nil => cases happ
  | cons a rest ih =>
      rw [runLoop_cons]
      rcases List.mem_cons.1 happ with rfl | happ
      · exact List.mem_append_left _ (hm st)
      · exact List.mem_append_right _ (ih ((step st a).1) happ)

/-- A spawn performed for a batch member by every possible loop state is in
the batch spawns. -/
theorem runLoop_spawn_mem
    (step : RunState → App → RunState × List Spawn × List InstallMessage)
    (batch : List App) (st : RunState) (app : App) (happ : app ∈ batch)
    (sp : Spawn) (hm : ∀ st1, sp ∈ (step st1 app).2.1) :
    sp ∈ (runLoop step st batch).2.1 := by
  induction batch generalizing st with
  | nil => cases happ
  | cons a rest ih =>
      rw [runLoop_cons]
      rcases List.mem_cons.1 happ with rfl | happ
      · exact List.mem_append_left _ (hm st)
      · exact List.mem_append_right _ (ih ((step st a).1) happ)

/-! ## Run-level composition -/

/-- The three batches partition the directive list, so their sizes sum to
its length. -/
theorem batches_length (apps : List App) :
    (apps.filter (fun a => a.install_method.isBrew)).length +
    (apps.filter (fun a => a.install_method.isBrewCask)).length +
    (apps.filter (fun a =>
      !a.install_method.isBrew && !a.install_method.isBrewCask)).length =
    apps.length := by
  induction apps with
  | nil => rfl
  | cons a rest ih =>
      have hbc : a.install_method.isBrew = false ∨
          a.install_method.isBrewCask = false := by
        cases a.install_method <;>
          simp [InstallMethod.isBrew, InstallMethod.isBrewCask]
      simp only [List.filter_cons, List.length_cons]
      rcases hb : a.install_method.isBrew <;>
        rcases hc : a.install_method.isBrewCask
      · simp [hb, hc]; omega
      · simp [hb, hc]; omega
      · simp [hb, hc]; omega
      · rcases hbc with h | h
        · rw [hb] at h; cases h
        · rw [hc] at h; cases h

/-- The formula batch of a run. -/
def fBatch (apps : List App) : List App :=
  apps.filter (fun a => a.install_method.isBrew)

/-- The cask batch of a run. -/
def cBatch (apps : List App) : List App :=
  apps.filter (fun a => a.install_method.isBrewCask)

/-- The catch-all batch of a run. -/
def oBatch (apps : List App) : List App :=
  apps.filter (fun a =>
    !a.install_method.isBrew && !a.install_method.isBrewCask)

/-- Loop state after the formula batch. -/
def stF (env : Env) (apps : List App) (total : Nat) : RunState :=
  (runLoop (formulaStep env total) ⟨InstallSummary.default, 0⟩ (fBatch apps)).1

/-- Loop state after the cask batch. -/
def stC (env : Env) (apps : List App) (total : Nat) : RunState :=
  (runLoop (caskStep env total) (stF env apps total) (cBatch apps)).1

/-- Loop state after the catch-all batch. -/
def stO (env : Env) (apps : List App) (total : Nat) : RunState :=
  (runLoop (otherStep env total) (stC env apps total) (oBatch apps)).1

/-- Evaluation of `runBatches` in terms of the three loops. -/
theorem runBatches_eq (env : Env) (apps : List App) (total : Nat) :
    runBatches env apps total =
      ((stO env apps total).summary,
       (runLoop (formulaStep env total) ⟨InstallSummary.default, 0⟩
          (fBatch apps)).2.1 ++
         ((runLoop (caskStep env total) (stF env apps total)
            (cBatch apps)).2.1 ++
          (runLoop (otherStep env total) (stC env apps total)
            (oBatch apps)).2.1),
       (if (fBatch apps).isEmpty then []
        else [InstallMessage.phaseStart "Homebrew Formulae"]) ++
         ((runLoop (formulaStep env total) ⟨InstallSummary.default, 0⟩
            (fBatch apps)).2.2 ++
          ((if (cBatch apps).isEmpty then []
            else [InstallMessage.phaseStart "Homebrew Casks"]) ++
           ((runLoop (caskStep env total) (stF env apps total)
              (cBatch apps)).2.2 ++
            ((if (oBatch apps).isEmpty then []
              else [InstallMessage.phaseStart "Additional Tools"]) ++
             ((runLoop (otherStep env total) (stC env apps total)
                (oBatch apps)).2.2 ++
              [InstallMessage.done
                (stO env apps total).summary.succeeded.length
                (stO env apps total).summary.failed.length
                (stO env apps total).summary.skipped.length]))))) ) := by
  simp only [runBatches, stO, stC, stF, fBatch, cBatch, oBatch,
    List.append_assoc]

/-- NonFatal environments: Homebrew is present, or its bootstrap
succeeds. -/
def NonFatal (env : Env) : Prop :=
  env.hasHomebrew = true ∨ (bootstrap_homebrew env).2.2 = Except.ok ()

/-- For a non-fatal environment, the run's messages are a prelude of
bootstrap logs (plus the bootstrap phase banner) followed by the batch
messages, and the returned summary is the batch summary. -/
theorem run_install_nonfatal (env : Env) (apps : List App)
    (h : NonFatal env) :
    ∃ prelude,
      (run_install env apps).2.2 =
        prelude ++ (runBatches env apps apps.length).2.2 ∧
      (run_install env apps).1 = (runBatches env apps apps.length).1 ∧
      ∀ x ∈ prelude,
        x.isItemEvent = false ∧ x.isStart = false ∧ x.isTerminal = false ∧
        x.isDone = false ∧ x.isProgress = false ∧
        (x.isPhaseStart = true →
          x = InstallMessage.phaseStart "Homebrew Bootstrap") := by
  rcases hH : env.hasHomebrew
  · rcases h with h | h
    · rw [hH] at h; cases h
    · rcases hbe : bootstrap_homebrew env with ⟨hsp, hms, hres⟩
      have hm := bootstrap_homebrew_msgs env
      rw [hbe] at hm h
      simp only at hm h
      subst hm
      refine ⟨[InstallMessage.phaseStart "Homebrew Bootstrap",
        InstallMessage.log "[BREW] Homebrew not found — installing...",
        InstallMessage.log "[BREW] Downloading Homebrew installer...",
        InstallMessage.log "[BREW] Homebrew installed successfully"],
        ?_, ?_, ?_⟩
      · simp [run_install, hH, hbe, h]
      · simp [run_install, hH, hbe, h]
      · intro x hx
        rcases hx with _ | ⟨_, hx⟩
        · exact ⟨rfl, rfl, rfl, rfl, rfl, fun _ => rfl⟩
        · rcases hx with _ | ⟨_, hx⟩
          · exact ⟨rfl, rfl, rfl, rfl, rfl, fun hc => by cases hc⟩
          · rcases hx with _ | ⟨_, hx⟩
            · exact ⟨rfl, rfl, rfl, rfl, rfl, fun hc => by cases hc⟩
            · rcases hx with _ | ⟨_, hx⟩
              · exact ⟨rfl, rfl, rfl, rfl, rfl, fun hc => by cases hc⟩
              · cases hx
  · rcases hrc : run_command env "brew" ["update"] with ⟨usp, ums, ures⟩
    have hums : ∀ x ∈ ums, x.isLog = true := by
      have hl := run_command_msgs_log env "brew" ["update"]
      rw [hrc] at hl; exact hl
    refine ⟨InstallMessage.phaseStart "Homebrew Bootstrap" ::
      InstallMessage.log "[BREW] Homebrew found — updating..." :: ums,
      ?_, ?_, ?_⟩
    · simp [run_install, hH, hrc]
    · simp [run_install, hH, hrc]
    · intro x hx
      rcases hx with _ | ⟨_, hx⟩
      · exact ⟨rfl, rfl, rfl, rfl, rfl, fun _ => rfl⟩
      · rcases hx with _ | ⟨_, hx⟩
        · exact ⟨rfl, rfl, rfl, rfl, rfl, fun hc => by cases hc⟩
        · obtain ⟨h1, h2, h3, h4, h5, h6, -⟩ := log_flavour x (hums x hx)
          exact ⟨isItemEvent_false_of_isLog x (hums x hx), h1, h2, h3, h6,
            fun hc => absurd hc (by simp [h4])⟩

/-- Evaluation of a fatal run: Homebrew absent and bootstrap failing. -/
theorem run_install_fatal (env : Env) (apps : List App)
    (hb : env.hasHomebrew = false) (e : String)
    (he : (bootstrap_homebrew env).2.2 = Except.error e) :
    run_install env apps =
      (InstallSummary.default, (bootstrap_homebrew env).1,
       [InstallMessage.phaseStart "Homebrew Bootstrap",
        InstallMessage.log "[BREW] Homebrew not found — installing...",
        InstallMessage.log "[BREW] Downloading Homebrew installer...",
        InstallMessage.fatalError s!"Failed to install Homebrew: {e}"]) := by
  rcases hbe : bootstrap_homebrew env with ⟨hsp, hms, hres⟩
  have hm := bootstrap_homebrew_msgs env
  rw [hbe] at hm he
  simp only at hm he
  subst hm
  simp [run_install, hb, hbe, he]

/-- The mechanism-specific already-satisfied predicate of the executor:
a `brew list` query for formulae and casks; no check exists for the other
mechanisms. -/
def alreadySatisfied (env : Env) (app : App) : Bool :=
  match app.install_method with
  | .brew pkg => (is_brew_installed env pkg).2
  | .brewCask pkg => (is_brew_cask_installed env pkg).2
  | _ => false

/-- A method with the brew flag is a `brew _`. -/
theorem isBrew_exists {m : InstallMethod} (h : m.isBrew = true) :
    ∃ pkg, m = .brew pkg := by
  cases m <;> simp_all [InstallMethod.isBrew]

/-- A method with the cask flag is a `brewCask _`. -/
theorem isBrewCask_exists {m : InstallMethod} (h : m.isBrewCask = true) :
    ∃ pkg, m = .brewCask pkg := by
  cases m <;> simp_all [InstallMethod.isBrewCask]

/-- Step specification holds on the whole formula batch. -/
theorem fBatch_spec (env : Env) (apps : List App) (total : Nat) :
    ∀ st1 a, a ∈ fBatch apps →
      ItemStepSpec total (formulaStep env total) st1 a := by
  intro st1 a ha
  have hf : a ∈ apps.filter (fun a => a.install_method.isBrew) := ha
  have hp : a.install_method.isBrew = true := by
    simpa using List.of_mem_filter hf
  obtain ⟨pkg, hm⟩ := isBrew_exists hp
  exact formulaStep_spec env total st1 a pkg hm

/-- Step specification holds on the whole cask batch. -/
theorem cBatch_spec (env : Env) (apps : List App) (total : Nat) :
    ∀ st1 a, a ∈ cBatch apps →
      ItemStepSpec total (caskStep env total) st1 a := by
  intro st1 a ha
  have hf : a ∈ apps.filter (fun a => a.install_method.isBrewCask) := ha
  have hp : a.install_method.isBrewCask = true := by
    simpa using List.of_mem_filter hf
  obtain ⟨pkg, hm⟩ := isBrewCask_exists hp
  exact caskStep_spec env total st1 a pkg hm

/-- Step specification holds on the whole catch-all batch. -/
theorem oBatch_spec (env : Env) (apps : List App) (total : Nat) :
    ∀ st1 a, a ∈ oBatch apps →
      ItemStepSpec total (otherStep env total) st1 a :=
  fun st1 a _ => otherStep_spec env total st1 a

/-- A phase header contributes no progress event. -/
theorem hdr_filter_progress (c : Bool) (s : String) :
    ((if c then ([] : List InstallMessage)
      else [InstallMessage.phaseStart s]).filter
        (fun x => x.isProgress)) = [] := by
  cases c <;> simp [InstallMessage.isProgress]

/-- In a non-fatal run, the progress events are exactly one report per
directive, counting 1 up to the list length. -/
theorem run_install_progress_events (env : Env) (apps : List App)
    (hnf : NonFatal env) :
    (run_install env apps).2.2.filter (fun x => x.isProgress) =
      (List.range apps.length).map
        (fun i => InstallMessage.progress (i + 1) apps.length) := by
  obtain ⟨prelude, hmsgs, -, hpre⟩ := run_install_nonfatal env apps hnf
  rw [hmsgs, List.filter_append]
  have hpre0 : prelude.filter (fun x => x.isProgress) = [] :=
    List.filter_eq_nil_iff.2 (fun x hx => by
      simp [(hpre x hx).2.2.2.2.1])
  rw [hpre0, List.nil_append, runBatches_eq]
  simp only [List.filter_append]
  rw [hdr_filter_progress, hdr_filter_progress, hdr_filter_progress,
    runLoop_progress apps.length _ _ _ (fBatch_spec env apps apps.length),
    runLoop_progress apps.length _ _ _ (cBatch_spec env apps apps.length),
    runLoop_progress apps.length _ _ _ (oBatch_spec env apps apps.length)]
  have hcf : (stF env apps apps.length).completed = (fBatch apps).length := by
    unfold stF
    rw [runLoop_completed apps.length _ _ _ (fBatch_spec env apps apps.length)]
    simp
  have hcc : (stC env apps apps.length).completed =
      (fBatch apps).length + (cBatch apps).length := by
    unfold stC
    rw [runLoop_completed apps.length _ _ _ (cBatch_spec env apps apps.length),
      hcf]
  have hN : (fBatch apps).length + (cBatch apps).length +
      (oBatch apps).length = apps.length := batches_length apps
  rw [hcf, hcc]
  have hsplit : List.range apps.length =
      List.range (fBatch apps).length ++
      (List.range (cBatch apps).length).map
        (fun i => (fBatch apps).length + i) ++
      (List.range (oBatch apps).length).map
        (fun i => (fBatch apps).length + (cBatch apps).length + i) := by
    rw [← hN, List.range_add, List.range_add]
  rw [hsplit]
  simp only [List.map_append, List.map_map, List.filter_nil,
    List.filter_cons, List.filter_nil]
  simp only [show ∀ a b c : Nat,
      (InstallMessage.done a b c).isProgress = false from fun _ _ _ => rfl,
    Bool.false_eq_true, if_false, List.nil_append, List.append_nil,
    List.append_assoc]
  simp only [Function.comp_def, Nat.zero_add]

/-- Composition of the three batch summaries: the final summary extends
the empty one by per-batch pieces whose sizes sum to the list length, and
all skipped entries carry "Already installed". -/
theorem run_install_summary_pieces (env : Env) (apps : List App)
    (hnf : NonFatal env) :
    (run_install env apps).1.succeeded.length +
      (run_install env apps).1.failed.length +
      (run_install env apps).1.skipped.length = apps.length ∧
    ∀ pr ∈ (run_install env apps).1.skipped, pr.2 = "Already installed" := by
  obtain ⟨prelude, -, hsum, -⟩ := run_install_nonfatal env apps hnf
  rw [hsum, runBatches_eq]
  obtain ⟨s1, f1, k1, hs1, hf1, hk1, hlen1, hr1⟩ :=
    runLoop_summary apps.length _ (fBatch apps) ⟨InstallSummary.default, 0⟩
      (fBatch_spec env apps apps.length)
  obtain ⟨s2, f2, k2, hs2, hf2, hk2, hlen2, hr2⟩ :=
    runLoop_summary apps.length _ (cBatch apps) (stF env apps apps.length)
      (cBatch_spec env apps apps.length)
  obtain ⟨s3, f3, k3, hs3, hf3, hk3, hlen3, hr3⟩ :=
    runLoop_summary apps.length _ (oBatch apps) (stC env apps apps.length)
      (oBatch_spec env apps apps.length)
  have hsO : (stO env apps apps.length).summary.succeeded =
      s1 ++ s2 ++ s3 := by
    unfold stO; rw [hs3]; unfold stC; rw [hs2]; unfold stF; rw [hs1]
    simp [InstallSummary.default]
  have hfO : (stO env apps apps.length).summary.failed =
      f1 ++ f2 ++ f3 := by
    unfold stO; rw [hf3]; unfold stC; rw [hf2]; unfold stF; rw [hf1]
    simp [InstallSummary.default]
  have hkO : (stO env apps apps.length).summary.skipped =
      k1 ++ k2 ++ k3 := by
    unfold stO; rw [hk3]; unfold stC; rw [hk2]; unfold stF; rw [hk1]
    simp [InstallSummary.default]
  constructor
  · simp only [hsO, hfO, hkO, List.length_append]
    have hN : (fBatch apps).length + (cBatch apps).length +
        (oBatch apps).length = apps.length := batches_length apps
    omega
  · intro pr hpr
    rw [hkO] at hpr
    rcases List.mem_append.1 hpr with hpr | hpr
    · rcases List.mem_append.1 hpr with hpr | hpr
      · exact hr1 pr hpr
      · exact hr2 pr hpr
    · exact hr3 pr hpr

/-- An environment in which Homebrew is present, `brew list` queries fail
(nothing installed) and all other spawns succeed with empty output. -/
def envNoneInstalled : Env :=
  { hasHomebrew := true
    run := fun _ args =>
      if args.head? = some "list" then .ran ⟨false, "exit status: 1", "", ""⟩
      else .ran ⟨true, "exit status: 0", "", ""⟩ }

/-- C2: in a run on a directive list of size N in which no item's
already-satisfied predicate holds (and the bootstrap is not fatal), the
last progress event carries completed = total = N, and the final
done-summary counts — the sizes of the three summary collections, which
the done event reports — sum to N.  For N = 0 there is no progress event,
hence the first conjunct is conditional on N being positive. -/
theorem final_progress_and_counts (env : Env) (apps : List App)
    (hnf : NonFatal env)
    (hsat : ∀ app ∈ apps, alreadySatisfied env app = false) :
    (0 < apps.length →
      ((run_install env apps).2.2.filter (fun x => x.isProgress)).getLast? =
        some (InstallMessage.progress apps.length apps.length)) ∧
    (run_install env apps).1.succeeded.length +
      (run_install env apps).1.failed.length +
      (run_install env apps).1.skipped.length = apps.length ∧
    InstallMessage.done (run_install env apps).1.succeeded.length
        (run_install env apps).1.failed.length
        (run_install env apps).1.skipped.length ∈
      (run_install env apps).2.2 := by
  refine ⟨?_, (run_install_summary_pieces env apps hnf).1, ?_⟩
  · intro hne
    rw [run_install_progress_events env apps hnf]
    obtain ⟨m, hm⟩ : ∃ m, apps.length = m + 1 := ⟨apps.length - 1, by omega⟩
    rw [hm, List.range_succ, List.map_append]
    simp [List.getLast?_concat]
  · obtain ⟨prelude, hmsgs, hsum, -⟩ := run_install_nonfatal env apps hnf
    rw [hmsgs, hsum, runBatches_eq]
    simp [runBatches_eq]

/-- Witness for C2 at a concrete run of two items (one formula, one cargo
package), neither already installed. -/
theorem final_progress_and_counts_witness :
    (0 < ([appRipgrep, appZoxide] : List App).length →
      ((run_install envNoneInstalled [appRipgrep, appZoxide]).2.2.filter
        (fun x => x.isProgress)).getLast? =
        some (InstallMessage.progress 2 2)) ∧
    (run_install envNoneInstalled [appRipgrep, appZoxide]).1.succeeded.length +
      (run_install envNoneInstalled [appRipgrep, appZoxide]).1.failed.length +
      (run_install envNoneInstalled [appRipgrep, appZoxide]).1.skipped.length
        = 2 ∧
    InstallMessage.done
        (run_install envNoneInstalled [appRipgrep, appZoxide]).1.succeeded.length
        (run_install envNoneInstalled [appRipgrep, appZoxide]).1.failed.length
        (run_install envNoneInstalled [appRipgrep, appZoxide]).1.skipped.length
      ∈ (run_install envNoneInstalled [appRipgrep, appZoxide]).2.2 :=
  final_progress_and_counts envNoneInstalled [appRipgrep, appZoxide]
    (Or.inl rfl) (by decide)

/-- An event without item name is not a started/terminal event for any
name. -/
theorem nameOf_none_of_not_item (x : InstallMessage)
    (h : x.isItemEvent = false) : x.nameOf = none := by
  cases x <;> simp_all [InstallMessage.isItemEvent, InstallMessage.nameOf]

/-- A member of one batch has a name foreign to any batch with a
disjoint selector, provided the directive names are distinct. -/
theorem batch_name_disjoint {apps : List App}
    (hnodup : (apps.map (·.name)).Nodup) {p q : App → Bool}
    (hpq : ∀ a, p a = true → q a = true → False) {app : App}
    (happ : app ∈ apps.filter p) :
    app.name ∉ (apps.filter q).map (·.name) := by
  intro hmem
  obtain ⟨b, hb, hbname⟩ := List.mem_map.1 hmem
  have hbq : q b = true := by simpa using List.of_mem_filter hb
  have hpapp : p app = true := by simpa using List.of_mem_filter happ
  have hba : b = app :=
    List.inj_on_of_nodup_map hnodup (List.mem_of_mem_filter hb)
      (List.mem_of_mem_filter happ) hbname
  exact hpq app hpapp (hba ▸ hbq)

/-- Name-level version of batch disjointness. -/
theorem batch_names_disjoint {apps : List App}
    (hnodup : (apps.map (·.name)).Nodup) {p q : App → Bool}
    (hpq : ∀ a, p a = true → q a = true → False) :
    ∀ n, n ∈ (apps.filter p).map (·.name) →
      n ∈ (apps.filter q).map (·.name) → False := by
  intro n h1 h2
  obtain ⟨b, hb, rfl⟩ := List.mem_map.1 h1
  exact batch_name_disjoint hnodup hpq hb h2

/-- A member of a phase-header list is that phase banner. -/
theorem mem_hdr {c : Bool} {s : String} {x : InstallMessage}
    (hx : x ∈ (if c then ([] : List InstallMessage)
      else [InstallMessage.phaseStart s])) :
    x = InstallMessage.phaseStart s := by
  rcases c <;> simp_all

/-- Brew and cask selectors are disjoint. -/
theorem brew_cask_disjoint : ∀ a : App, a.install_method.isBrew = true →
    a.install_method.isBrewCask = true → False := fun a h1 h2 => by
  rcases hc : a.install_method <;> rw [hc] at h1 h2 <;>
    simp_all [InstallMethod.isBrew, InstallMethod.isBrewCask]

/-- Brew and catch-all selectors are disjoint. -/
theorem brew_other_disjoint : ∀ a : App, a.install_method.isBrew = true →
    (!a.install_method.isBrew && !a.install_method.isBrewCask) = true →
    False := fun a h1 h2 => by simp_all

/-- Cask and catch-all selectors are disjoint. -/
theorem cask_other_disjoint : ∀ a : App,
    a.install_method.isBrewCask = true →
    (!a.install_method.isBrew && !a.install_method.isBrewCask) = true →
    False := fun a h1 h2 => by simp_all

/-- Flavour of a phase banner. -/
theorem phaseStart_flavour (s : String) :
    (InstallMessage.phaseStart s).isStart = false ∧
    (InstallMessage.phaseStart s).isTerminal = false ∧
    (InstallMessage.phaseStart s).nameOf = none ∧
    (InstallMessage.phaseStart s).isDone = false :=
  ⟨rfl, rfl, rfl, rfl⟩

/-- Flavour of a done event. -/
theorem done_flavour (a b c : Nat) :
    (InstallMessage.done a b c).isStart = false ∧
    (InstallMessage.done a b c).isTerminal = false ∧
    (InstallMessage.done a b c).nameOf = none :=
  ⟨rfl, rfl, rfl⟩

/-- Names of one batch are duplicate-free when the directive names are. -/
theorem batch_nodup {apps : List App}
    (hnodup : (apps.map (·.name)).Nodup) (p : App → Bool) :
    ((apps.filter p).map (·.name)).Nodup :=
  hnodup.sublist ((List.filter_sublist apps).map (·.name))

/-- C3: in every executor run on directives with pairwise-distinct names,
each item's started event strictly precedes its terminal event, every
terminal event strictly precedes the done-summary event, and each batch's
phase banner precedes every item event of that batch. -/
theorem event_ordering (env : Env) (apps : List App)
    (hnodup : (apps.map (·.name)).Nodup) :
    (∀ app ∈ apps,
      Precedes (fun x => x.isStart = true ∧ x.nameOf = some app.name)
        (fun x => x.isTerminal = true ∧ x.nameOf = some app.name)
        (run_install env apps).2.2) ∧
    Precedes (fun x => x.isTerminal = true) (fun x => x.isDone = true)
      (run_install env apps).2.2 ∧
    Precedes (fun x => x = InstallMessage.phaseStart "Homebrew Formulae")
      (fun x => ∃ n, x.nameOf = some n ∧ n ∈ (fBatch apps).map (·.name))
      (run_install env apps).2.2 ∧
    Precedes (fun x => x = InstallMessage.phaseStart "Homebrew Casks")
      (fun x => ∃ n, x.nameOf = some n ∧ n ∈ (cBatch apps).map (·.name))
      (run_install env apps).2.2 ∧
    Precedes (fun x => x = InstallMessage.phaseStart "Additional Tools")
      (fun x => ∃ n, x.nameOf = some n ∧ n ∈ (oBatch apps).map (·.name))
      (run_install env apps).2.2 := by
  by_cases hnf : NonFatal env
  case neg =>
    have hH : env.hasHomebrew = false := by
      rcases h : env.hasHomebrew
      · rfl
      · exact absurd (Or.inl h) hnf
    obtain ⟨e, he⟩ : ∃ e, (bootstrap_homebrew env).2.2 = Except.error e := by
      rcases h : (bootstrap_homebrew env).2.2 with e | u
      · exact ⟨e, rfl⟩
      · cases u; exact absurd (Or.inr h) hnf
    have hfe : (run_install env apps).2.2 =
        [InstallMessage.phaseStart "Homebrew Bootstrap",
         InstallMessage.log "[BREW] Homebrew not found — installing...",
         InstallMessage.log "[BREW] Downloading Homebrew installer...",
         InstallMessage.fatalError s!"Failed to install Homebrew: {e}"] := by
      rw [run_install_fatal env apps hH e he]
    refine ⟨?_, ?_, ?_, ?_, ?_⟩
    · intro app _
      rw [hfe]
      apply precedes_of_no_left
      intro x hx
      rintro ⟨h1, -⟩
      simp at hx
      rcases hx with rfl | rfl | rfl | rfl <;> simp [InstallMessage.isStart] at h1
    · rw [hfe]
      apply precedes_of_no_left
      intro x hx
      intro h1
      simp at hx
      rcases hx with rfl | rfl | rfl | rfl <;>
        simp [InstallMessage.isTerminal] at h1
    all_goals
      rw [hfe]
      apply precedes_of_no_right
      intro x hx
      rintro ⟨n, hn, -⟩
      simp at hx
      rcases hx with rfl | rfl | rfl | rfl <;>
        simp [InstallMessage.nameOf] at hn
  case pos =>
    obtain ⟨prelude, hmsgs, -, hpre⟩ := run_install_nonfatal env apps hnf
    have hM : (run_install env apps).2.2 =
        prelude ++
        ((if (fBatch apps).isEmpty then ([] : List InstallMessage)
        else [InstallMessage.phaseStart "Homebrew Formulae"]) ++
         ((runLoop (formulaStep env apps.length) ⟨InstallSummary.default, 0⟩
        (fBatch apps)).2.2 ++
          ((if (cBatch apps).isEmpty then ([] : List InstallMessage)
        else [InstallMessage.phaseStart "Homebrew Casks"]) ++
           ((runLoop (caskStep env apps.length) (stF env apps apps.length)
        (cBatch apps)).2.2 ++
            ((if (oBatch apps).isEmpty then ([] : List InstallMessage)
        else [InstallMessage.phaseStart "Additional Tools"]) ++
             ((runLoop (otherStep env apps.length) (stC env apps apps.length)
        (oBatch apps)).2.2 ++
              [InstallMessage.done (stO env apps apps.length).summary.succeeded.length
        (stO env apps apps.length).summary.failed.length
        (stO env apps apps.length).summary.skipped.length])))))) := by
      rw [hmsgs, runBatches_eq]
    have hPf : ∀ x ∈ prelude, x.isStart = false ∧ x.isTerminal = false ∧
        x.isDone = false ∧ x.nameOf = none ∧
        (x.isPhaseStart = true →
          x = InstallMessage.phaseStart "Homebrew Bootstrap") :=
      fun x hx => ⟨(hpre x hx).2.1, (hpre x hx).2.2.1, (hpre x hx).2.2.2.1,
        nameOf_none_of_not_item x (hpre x hx).1, (hpre x hx).2.2.2.2.2⟩
    have hAx : ∀ x ∈ (if (fBatch apps).isEmpty then ([] : List InstallMessage)
        else [InstallMessage.phaseStart "Homebrew Formulae"]),
        x = InstallMessage.phaseStart "Homebrew Formulae" :=
      fun x hx => mem_hdr hx
    have hCx : ∀ x ∈ (if (cBatch apps).isEmpty then ([] : List InstallMessage)
        else [InstallMessage.phaseStart "Homebrew Casks"]),
        x = InstallMessage.phaseStart "Homebrew Casks" :=
      fun x hx => mem_hdr hx
    have hEx : ∀ x ∈ (if (oBatch apps).isEmpty then ([] : List InstallMessage)
        else [InstallMessage.phaseStart "Additional Tools"]),
        x = InstallMessage.phaseStart "Additional Tools" :=
      fun x hx => mem_hdr hx
    have hB1f : ∀ x ∈ (runLoop (formulaStep env apps.length) ⟨InstallSummary.default, 0⟩
        (fBatch apps)).2.2,
        x.isDone = false ∧ x.isPhaseStart = false ∧ x.isFatal = false ∧
        ∀ n, x.nameOf = some n → n ∈ (fBatch apps).map (·.name) :=
      runLoop_flavour apps.length _ (fBatch apps) ⟨InstallSummary.default, 0⟩
        (fBatch_spec env apps apps.length)
    have hB2f : ∀ x ∈ (runLoop (caskStep env apps.length) (stF env apps apps.length)
        (cBatch apps)).2.2,
        x.isDone = false ∧ x.isPhaseStart = false ∧ x.isFatal = false ∧
        ∀ n, x.nameOf = some n → n ∈ (cBatch apps).map (·.name) :=
      runLoop_flavour apps.length _ (cBatch apps) (stF env apps apps.length)
        (cBatch_spec env apps apps.length)
    have hB3f : ∀ x ∈ (runLoop (otherStep env apps.length) (stC env apps apps.length)
        (oBatch apps)).2.2,
        x.isDone = false ∧ x.isPhaseStart = false ∧ x.isFatal = false ∧
        ∀ n, x.nameOf = some n → n ∈ (oBatch apps).map (·.name) :=
      runLoop_flavour apps.length _ (oBatch apps) (stC env apps apps.length)
        (oBatch_spec env apps apps.length)
    have hGx : ∀ x ∈ [InstallMessage.done (stO env apps apps.length).summary.succeeded.length
        (stO env apps apps.length).summary.failed.length
        (stO env apps apps.length).summary.skipped.length],
        x = InstallMessage.done
          (stO env apps apps.length).summary.succeeded.length
          (stO env apps apps.length).summary.failed.length
          (stO env apps apps.length).summary.skipped.length :=
      fun x hx => by simpa using hx
    have hFCn := batch_names_disjoint hnodup brew_cask_disjoint
    have hFOn := batch_names_disjoint hnodup brew_other_disjoint
    have hCOn := batch_names_disjoint hnodup cask_other_disjoint
    refine ⟨?_, ?_, ?_, ?_, ?_⟩
    · -- started before terminal, per item
      intro app happ
      by_cases hb : app.install_method.isBrew = true
      · have happF : app ∈ fBatch apps := List.mem_filter.2 ⟨happ, hb⟩
        obtain ⟨xs, ys, hsplit, hxs, hys, -, -⟩ :=
          runLoop_split apps.length _ (fBatch apps)
            ⟨InstallSummary.default, 0⟩ (fBatch_spec env apps apps.length)
            app happF (batch_nodup hnodup _)
        have heq : (run_install env apps).2.2 =
            (prelude ++ (if (fBatch apps).isEmpty then ([] : List InstallMessage)
        else [InstallMessage.phaseStart "Homebrew Formulae"]) ++ xs) ++
            (ys ++
             ((if (cBatch apps).isEmpty then ([] : List InstallMessage)
        else [InstallMessage.phaseStart "Homebrew Casks"]) ++
              ((runLoop (caskStep env apps.length) (stF env apps apps.length)
        (cBatch apps)).2.2 ++
               ((if (oBatch apps).isEmpty then ([] : List InstallMessage)
        else [InstallMessage.phaseStart "Additional Tools"]) ++
                ((runLoop (otherStep env apps.length) (stC env apps apps.length)
        (oBatch apps)).2.2 ++
                 [InstallMessage.done (stO env apps apps.length).summary.succeeded.length
        (stO env apps apps.length).summary.failed.length
        (stO env apps apps.length).summary.skipped.length]))))) := by
          rw [hM, hsplit]
          simp [List.append_assoc]
        rw [heq]
        apply precedes_of_split
        · intro x hx
          rcases List.mem_append.1 hx with hx | hx
          · rcases List.mem_append.1 hx with hx | hx
            · rintro ⟨h1, -⟩
              rw [(hPf x hx).2.1] at h1
              cases h1
            · rintro ⟨h1, -⟩
              rw [hAx x hx] at h1
              simp [InstallMessage.isTerminal] at h1
          · exact hxs x hx
        · intro y hy
          rcases List.mem_append.1 hy with hy | hy
          · exact hys y hy
          rcases List.mem_append.1 hy with hy | hy
          · rintro ⟨h1, -⟩
            rw [hCx y hy] at h1
            simp [InstallMessage.isStart] at h1
          rcases List.mem_append.1 hy with hy | hy
          · rintro ⟨-, hn⟩
            exact hFCn app.name (List.mem_map_of_mem _ happF)
              ((hB2f y hy).2.2.2 app.name hn)
          rcases List.mem_append.1 hy with hy | hy
          · rintro ⟨h1, -⟩
            rw [hEx y hy] at h1
            simp [InstallMessage.isStart] at h1
          rcases List.mem_append.1 hy with hy | hy
          · rintro ⟨-, hn⟩
            exact hFOn app.name (List.mem_map_of_mem _ happF)
              ((hB3f y hy).2.2.2 app.name hn)
          · rintro ⟨h1, -⟩
            rw [hGx y hy] at h1
            simp [InstallMessage.isStart] at h1
      · by_cases hc : app.install_method.isBrewCask = true
        · have happC : app ∈ cBatch apps := List.mem_filter.2 ⟨happ, hc⟩
          obtain ⟨xs, ys, hsplit, hxs, hys, -, -⟩ :=
            runLoop_split apps.length _ (cBatch apps)
              (stF env apps apps.length) (cBatch_spec env apps apps.length)
              app happC (batch_nodup hnodup _)
          have heq : (run_install env apps).2.2 =
              (prelude ++ (if (fBatch apps).isEmpty then ([] : List InstallMessage)
        else [InstallMessage.phaseStart "Homebrew Formulae"]) ++
               (runLoop (formulaStep env apps.length) ⟨InstallSummary.default, 0⟩
        (fBatch apps)).2.2 ++
               (if (cBatch apps).isEmpty then ([] : List InstallMessage)
        else [InstallMessage.phaseStart "Homebrew Casks"]) ++ xs) ++
              (ys ++
               ((if (oBatch apps).isEmpty then ([] : List InstallMessage)
        else [InstallMessage.phaseStart "Additional Tools"]) ++
                ((runLoop (otherStep env apps.length) (stC env apps apps.length)
        (oBatch apps)).2.2 ++
                 [InstallMessage.done (stO env apps apps.length).summary.succeeded.length
        (stO env apps apps.length).summary.failed.length
        (stO env apps apps.length).summary.skipped.length]))) := by
            rw [hM, hsplit]
            simp [List.append_assoc]
          rw [heq]
          apply precedes_of_split
          · intro x hx
            rcases List.mem_append.1 hx with hx | hx
            · rcases List.mem_append.1 hx with hx | hx
              · rcases List.mem_append.1 hx with hx | hx
                · rcases List.mem_append.1 hx with hx | hx
                  · rintro ⟨h1, -⟩
                    rw [(hPf x hx).2.1] at h1
                    cases h1
                  · rintro ⟨h1, -⟩
                    rw [hAx x hx] at h1
                    simp [InstallMessage.isTerminal] at h1
                · rintro ⟨-, hn⟩
                  exact hFCn app.name ((hB1f x hx).2.2.2 app.name hn)
                    (List.mem_map_of_mem _ happC)
              · rintro ⟨h1, -⟩
                rw [hCx x hx] at h1
                simp [InstallMessage.isTerminal] at h1
            · exact hxs x hx
          · intro y hy
            rcases List.mem_append.1 hy with hy | hy
            · exact hys y hy
            rcases List.mem_append.1 hy with hy | hy
            · rintro ⟨h1, -⟩
              rw [hEx y hy] at h1
              simp [InstallMessage.isStart] at h1
            rcases List.mem_append.1 hy with hy | hy
            · rintro ⟨-, hn⟩
              exact hCOn app.name (List.mem_map_of_mem _ happC)
                ((hB3f y hy).2.2.2 app.name hn)
            · rintro ⟨h1, -⟩
              rw [hGx y hy] at h1
              simp [InstallMessage.isStart] at h1
        · have hbo : (!app.install_method.isBrew &&
              !app.install_method.isBrewCask) = true := by
            simp [Bool.not_eq_true] at hb hc
            simp [hb, hc]
          have happO : app ∈ oBatch apps := List.mem_filter.2 ⟨happ, hbo⟩
          obtain ⟨xs, ys, hsplit, hxs, hys, -, -⟩ :=
            runLoop_split apps.length _ (oBatch apps)
              (stC env apps apps.length) (oBatch_spec env apps apps.length)
              app happO (batch_nodup hnodup _)
          have heq : (run_install env apps).2.2 =
              (prelude ++ (if (fBatch apps).isEmpty then ([] : List InstallMessage)
        else [InstallMessage.phaseStart "Homebrew Formulae"]) ++
               (runLoop (formulaStep env apps.length) ⟨InstallSummary.default, 0⟩
        (fBatch apps)).2.2 ++
               (if (cBatch apps).isEmpty then ([] : List InstallMessage)
        else [InstallMessage.phaseStart "Homebrew Casks"]) ++
               (runLoop (caskStep env apps.length) (stF env apps apps.length)
        (cBatch apps)).2.2 ++
               (if (oBatch apps).isEmpty then ([] : List InstallMessage)
        else [InstallMessage.phaseStart "Additional Tools"]) ++ xs) ++
              (ys ++
               [InstallMessage.done (stO env apps apps.length).summary.succeeded.length
        (stO env apps apps.length).summary.failed.length
        (stO env apps apps.length).summary.skipped.length]) := by
            rw [hM, hsplit]
            simp [List.append_assoc]
          rw [heq]
          apply precedes_of_split
          · intro x hx
            rcases List.mem_append.1 hx with hx | hx
            · rcases List.mem_append.1 hx with hx | hx
              · rcases List.mem_append.1 hx with hx | hx
                · rcases List.mem_append.1 hx with hx | hx
                  · rcases List.mem_append.1 hx with hx | hx
                    · rcases List.mem_append.1 hx with hx | hx
                      · rintro ⟨h1, -⟩
                        rw [(hPf x hx).2.1] at h1
                        cases h1
                      · rintro ⟨h1, -⟩
                        rw [hAx x hx] at h1
                        simp [InstallMessage.isTerminal] at h1
                    · rintro ⟨-, hn⟩
                      exact hFOn app.name ((hB1f x hx).2.2.2 app.name hn)
                        (List.mem_map_of_mem _ happO)
                  · rintro ⟨h1, -⟩
                    rw [hCx x hx] at h1
                    simp [InstallMessage.isTerminal] at h1
                · rintro ⟨-, hn⟩
                  exact hCOn app.name ((hB2f x hx).2.2.2 app.name hn)
                    (List.mem_map_of_mem _ happO)
              · rintro ⟨h1, -⟩
                rw [hEx x hx] at h1
                simp [InstallMessage.isTerminal] at h1
            · exact hxs x hx
          · intro y hy
            rcases List.mem_append.1 hy with hy | hy
            · exact hys y hy
            · rintro ⟨h1, -⟩
              rw [hGx y hy] at h1
              simp [InstallMessage.isStart] at h1
    · -- terminal before done
      have heq : (run_install env apps).2.2 =
          (prelude ++ (if (fBatch apps).isEmpty then ([] : List InstallMessage)
        else [InstallMessage.phaseStart "Homebrew Formulae"]) ++
           (runLoop (formulaStep env apps.length) ⟨InstallSummary.default, 0⟩
        (fBatch apps)).2.2 ++
           (if (cBatch apps).isEmpty then ([] : List InstallMessage)
        else [InstallMessage.phaseStart "Homebrew Casks"]) ++
           (runLoop (caskStep env apps.length) (stF env apps apps.length)
        (cBatch apps)).2.2 ++
           (if (oBatch apps).isEmpty then ([] : List InstallMessage)
        else [InstallMessage.phaseStart "Additional Tools"]) ++
           (runLoop (otherStep env apps.length) (stC env apps apps.length)
        (oBatch apps)).2.2) ++
          [InstallMessage.done (stO env apps apps.length).summary.succeeded.length
        (stO env apps apps.length).summary.failed.length
        (stO env apps apps.length).summary.skipped.length] := by
        rw [hM]
        simp [List.append_assoc]
      rw [heq]
      apply precedes_of_split
      · intro x hx
        intro h1
        rcases List.mem_append.1 hx with hx | hx
        · rcases List.mem_append.1 hx with hx | hx
          · rcases List.mem_append.1 hx with hx | hx
            · rcases List.mem_append.1 hx with hx | hx
              · rcases List.mem_append.1 hx with hx | hx
                · rcases List.mem_append.1 hx with hx | hx
                  · rw [(hPf x hx).2.2.1] at h1
                    cases h1
                  · rw [hAx x hx] at h1
                    simp [InstallMessage.isDone] at h1
                · rw [(hB1f x hx).1] at h1
                  cases h1
              · rw [hCx x hx] at h1
                simp [InstallMessage.isDone] at h1
            · rw [(hB2f x hx).1] at h1
              cases h1
          · rw [hEx x hx] at h1
            simp [InstallMessage.isDone] at h1
        · rw [(hB3f x hx).1] at h1
          cases h1
      · intro y hy
        intro h1
        rw [hGx y hy] at h1
        simp [InstallMessage.isTerminal] at h1
    · -- formula banner before formula items
      have heq : (run_install env apps).2.2 =
          (prelude ++ (if (fBatch apps).isEmpty then ([] : List InstallMessage)
        else [InstallMessage.phaseStart "Homebrew Formulae"])) ++
          ((runLoop (formulaStep env apps.length) ⟨InstallSummary.default, 0⟩
        (fBatch apps)).2.2 ++
           ((if (cBatch apps).isEmpty then ([] : List InstallMessage)
        else [InstallMessage.phaseStart "Homebrew Casks"]) ++
            ((runLoop (caskStep env apps.length) (stF env apps apps.length)
        (cBatch apps)).2.2 ++
             ((if (oBatch apps).isEmpty then ([] : List InstallMessage)
        else [InstallMessage.phaseStart "Additional Tools"]) ++
              ((runLoop (otherStep env apps.length) (stC env apps apps.length)
        (oBatch apps)).2.2 ++
               [InstallMessage.done (stO env apps apps.length).summary.succeeded.length
        (stO env apps apps.length).summary.failed.length
        (stO env apps apps.length).summary.skipped.length]))))) := by
        rw [hM]
        simp [List.append_assoc]
      rw [heq]
      apply precedes_of_split
      · intro x hx
        rintro ⟨n, hn, -⟩
        rcases List.mem_append.1 hx with hx | hx
        · rw [(hPf x hx).2.2.2.1] at hn
          cases hn
        · rw [hAx x hx] at hn
          simp [InstallMessage.nameOf] at hn
      · intro y hy
        intro hp
        rcases List.mem_append.1 hy with hy | hy
        · rw [hp] at hy
          simpa [InstallMessage.isPhaseStart] using (hB1f _ hy).2.1
        rcases List.mem_append.1 hy with hy | hy
        · have h2 := hCx y hy
          rw [hp] at h2
          simp at h2
        rcases List.mem_append.1 hy with hy | hy
        · rw [hp] at hy
          simpa [InstallMessage.isPhaseStart] using (hB2f _ hy).2.1
        rcases List.mem_append.1 hy with hy | hy
        · have h2 := hEx y hy
          rw [hp] at h2
          simp at h2
        rcases List.mem_append.1 hy with hy | hy
        · rw [hp] at hy
          simpa [InstallMessage.isPhaseStart] using (hB3f _ hy).2.1
        · have h2 := hGx y hy
          rw [hp] at h2
          simp at h2
    · -- cask banner before cask items
      have heq : (run_install env apps).2.2 =
          (prelude ++ (if (fBatch apps).isEmpty then ([] : List InstallMessage)
        else [InstallMessage.phaseStart "Homebrew Formulae"]) ++
           (runLoop (formulaStep env apps.length) ⟨InstallSummary.default, 0⟩
        (fBatch apps)).2.2 ++
           (if (cBatch apps).isEmpty then ([] : List InstallMessage)
        else [InstallMessage.phaseStart "Homebrew Casks"])) ++
          ((runLoop (caskStep env apps.length) (stF env apps apps.length)
        (cBatch apps)).2.2 ++
           ((if (oBatch apps).isEmpty then ([] : List InstallMessage)
        else [InstallMessage.phaseStart "Additional Tools"]) ++
            ((runLoop (otherStep env apps.length) (stC env apps apps.length)
        (oBatch apps)).2.2 ++
             [InstallMessage.done (stO env apps apps.length).summary.succeeded.length
        (stO env apps apps.length).summary.failed.length
        (stO env apps apps.length).summary.skipped.length]))) := by
        rw [hM]
        simp [List.append_assoc]
      rw [heq]
      apply precedes_of_split
      · intro x hx
        rintro ⟨n, hn, hnc⟩
        rcases List.mem_append.1 hx with hx | hx
        · rcases List.mem_append.1 hx with hx | hx
          · rcases List.mem_append.1 hx with hx | hx
            · rw [(hPf x hx).2.2.2.1] at hn
              cases hn
            · rw [hAx x hx] at hn
              simp [InstallMessage.nameOf] at hn
          · exact hFCn n ((hB1f x hx).2.2.2 n hn) hnc
        · rw [hCx x hx] at hn
          simp [InstallMessage.nameOf] at hn
      · intro y hy
        intro hp
        rcases List.mem_append.1 hy with hy | hy
        · rw [hp] at hy
          simpa [InstallMessage.isPhaseStart] using (hB2f _ hy).2.1
        rcases List.mem_append.1 hy with hy | hy
        · have h2 := hEx y hy
          rw [hp] at h2
          simp at h2
        rcases List.mem_append.1 hy with hy | hy
        · rw [hp] at hy
          simpa [InstallMessage.isPhaseStart] using (hB3f _ hy).2.1
        · have h2 := hGx y hy
          rw [hp] at h2
          simp at h2
    · -- catch-all banner before catch-all items
      have heq : (run_install env apps).2.2 =
          (prelude ++ (if (fBatch apps).isEmpty then ([] : List InstallMessage)
        else [InstallMessage.phaseStart "Homebrew Formulae"]) ++
           (runLoop (formulaStep env apps.length) ⟨InstallSummary.default, 0⟩
        (fBatch apps)).2.2 ++
           (if (cBatch apps).isEmpty then ([] : List InstallMessage)
        else [InstallMessage.phaseStart "Homebrew Casks"]) ++
           (runLoop (caskStep env apps.length) (stF env apps apps.length)
        (cBatch apps)).2.2 ++
           (if (oBatch apps).isEmpty then ([] : List InstallMessage)
        else [InstallMessage.phaseStart "Additional Tools"])) ++
          ((runLoop (otherStep env apps.length) (stC env apps apps.length)
        (oBatch apps)).2.2 ++
           [InstallMessage.done (stO env apps apps.length).summary.succeeded.length
        (stO env apps apps.length).summary.failed.length
        (stO env apps apps.length).summary.skipped.length]) := by
        rw [hM]
        simp [List.append_assoc]
      rw [heq]
      apply precedes_of_split
      · intro x hx
        rintro ⟨n, hn, hnc⟩
        rcases List.mem_append.1 hx with hx | hx
        · rcases List.mem_append.1 hx with hx | hx
          · rcases List.mem_append.1 hx with hx | hx
            · rcases List.mem_append.1 hx with hx | hx
              · rcases List.mem_append.1 hx with hx | hx
                · rw [(hPf x hx).2.2.2.1] at hn
                  cases hn
                · rw [hAx x hx] at hn
                  simp [InstallMessage.nameOf] at hn
              · exact hFOn n ((hB1f x hx).2.2.2 n hn) hnc
            · rw [hCx x hx] at hn
              simp [InstallMessage.nameOf] at hn
          · exact hCOn n ((hB2f x hx).2.2.2 n hn) hnc
        · rw [hEx x hx] at hn
          simp [InstallMessage.nameOf] at hn
      · intro y hy
        intro hp
        rcases List.mem_append.1 hy with hy | hy
        · rw [hp] at hy
          simpa [InstallMessage.isPhaseStart] using (hB3f _ hy).2.1
        · have h2 := hGx y hy
          rw [hp] at h2
          simp at h2


/-- Witness for C3 at a concrete two-item run. -/
theorem event_ordering_witness :
    (∀ app ∈ ([appRipgrep, appZoxide] : List App),
      Precedes (fun x => x.isStart = true ∧ x.nameOf = some app.name)
        (fun x => x.isTerminal = true ∧ x.nameOf = some app.name)
        (run_install envNoneInstalled [appRipgrep, appZoxide]).2.2) ∧
    Precedes (fun x => x.isTerminal = true) (fun x => x.isDone = true)
      (run_install envNoneInstalled [appRipgrep, appZoxide]).2.2 ∧
    Precedes (fun x => x = InstallMessage.phaseStart "Homebrew Formulae")
      (fun x => ∃ n, x.nameOf = some n ∧
        n ∈ (fBatch [appRipgrep, appZoxide]).map (·.name))
      (run_install envNoneInstalled [appRipgrep, appZoxide]).2.2 ∧
    Precedes (fun x => x = InstallMessage.phaseStart "Homebrew Casks")
      (fun x => ∃ n, x.nameOf = some n ∧
        n ∈ (cBatch [appRipgrep, appZoxide]).map (·.name))
      (run_install envNoneInstalled [appRipgrep, appZoxide]).2.2 ∧
    Precedes (fun x => x = InstallMessage.phaseStart "Additional Tools")
      (fun x => ∃ n, x.nameOf = some n ∧
        n ∈ (oBatch [appRipgrep, appZoxide]).map (·.name))
      (run_install envNoneInstalled [appRipgrep, appZoxide]).2.2 :=
  event_ordering envNoneInstalled [appRipgrep, appZoxide] (by decide)

/-- The argv-style installer invocation `install_app` performs for each
mechanism. -/
def installerSpawnOf : InstallMethod → Spawn
  | .brew pkg => ⟨"brew", ["install", pkg]⟩
  | .brewCask pkg => ⟨"brew", ["install", "--cask", pkg]⟩
  | .cargo pkg => ⟨"cargo", ["install", pkg]⟩
  | .npm pkg => ⟨"npm", ["install", "-g", pkg]⟩
  | .pip pkg => ⟨"pip3", ["install", pkg]⟩
  | .go pkg => ⟨"go", ["install", pkg]⟩
  | .script url => ⟨"/bin/bash", ["-c", s!"curl -fsSL {url} | sh"]⟩
  | .manual cmd => ⟨"/bin/bash", ["-c", cmd]⟩
  | .apt pkg => ⟨"sudo", ["apt", "install", "-y", pkg]⟩

/-- Spawns performed by `run_command`. -/
theorem run_command_spawns (env : Env) (p : String) (args : List String) :
    (run_command env p args).1 = [⟨p, args⟩] := by
  rcases h : env.run p args with e | out <;> simp [run_command, h]

/-- Spawns performed by `install_via_script`. -/
theorem install_via_script_spawns (env : Env) (url : String) :
    (install_via_script env url).1 =
      [⟨"/bin/bash", ["-c", s!"curl -fsSL {url} | sh"]⟩] := by
  rcases h : env.run "/bin/bash" ["-c", s!"curl -fsSL {url} | sh"]
    with e | out <;> simp [install_via_script, h] <;> split <;> rfl

/-- Spawns performed by `run_shell_command`. -/
theorem run_shell_command_spawns (env : Env) (cmd : String) :
    (run_shell_command env cmd).1 = [⟨"/bin/bash", ["-c", cmd]⟩] := by
  rcases h : env.run "/bin/bash" ["-c", cmd] with e | out <;>
    simp [run_shell_command, h] <;> split <;> rfl

/-- The spawns of `install_app` are exactly the installer invocation. -/
theorem install_app_spawns (env : Env) (app : App) :
    (install_app env app).1 = [installerSpawnOf app.install_method] := by
  rcases app with ⟨i, n, c, m⟩
  cases m <;>
    simp only [install_app, installerSpawnOf] <;>
    first
      | exact run_command_spawns env _ _
      | exact install_via_script_spawns env _
      | exact run_shell_command_spawns env _

/-- The catch-all iteration spawns exactly what `install_app` spawns. -/
theorem otherStep_spawns (env : Env) (total : Nat) (st : RunState)
    (app : App) :
    (otherStep env total st app).2.1 = (install_app env app).1 := by
  rcases hr : install_app env app with ⟨isp, ims, res⟩
  rcases res with e | u
  · simp [otherStep, hr]
  · cases u; simp [otherStep, hr]

/-- A log line is not a skipped event. -/
theorem isSkipped_false_of_isLog (x : InstallMessage) (h : x.isLog = true) :
    x.isSkippedEvent = false := by
  cases x <;> simp_all [InstallMessage.isLog, InstallMessage.isSkippedEvent]

/-- The catch-all iteration emits no skipped event. -/
theorem otherStep_no_skip (env : Env) (total : Nat) (st : RunState)
    (app : App) :
    ∀ x ∈ (otherStep env total st app).2.2, x.isSkippedEvent = false := by
  rcases hr : install_app env app with ⟨isp, ims, res⟩
  have hlogs : ∀ x ∈ ims, x.isLog = true := by
    have h := install_app_msgs_log env app
    rw [hr] at h; exact h
  intro x hx
  rcases res with e | u
  · simp only [otherStep, hr] at hx
    rcases hx with _ | ⟨_, hx⟩
    · rfl
    · rcases List.mem_append.1 hx with hx | hx
      · exact isSkipped_false_of_isLog x (hlogs x hx)
      · rcases hx with _ | ⟨_, hx⟩
        · rfl
        · rcases hx with _ | ⟨_, hx⟩
          · rfl
          · cases hx
  · cases u
    simp only [otherStep, hr] at hx
    rcases hx with _ | ⟨_, hx⟩
    · rfl
    · rcases List.mem_append.1 hx with hx | hx
      · exact isSkipped_false_of_isLog x (hlogs x hx)
      · rcases hx with _ | ⟨_, hx⟩
        · rfl
        · rcases hx with _ | ⟨_, hx⟩
          · rfl
          · cases hx

/-- A loop whose steps emit no skipped event emits none. -/
theorem runLoop_no_skip
    (step : RunState → App → RunState × List Spawn × List InstallMessage)
    (batch : List App) (st : RunState)
    (h : ∀ st1 a, a ∈ batch → ∀ x ∈ (step st1 a).2.2,
      x.isSkippedEvent = false) :
    ∀ x ∈ (runLoop step st batch).2.2, x.isSkippedEvent = false := by
  induction batch generalizing st with
  | nil => simp [runLoop]
  | cons a rest ih =>
      intro x hx
      rw [runLoop_cons] at hx
      rcases List.mem_append.1 hx with hx | hx
      · exact h st a (by simp) x hx
      · exact ih ((step st a).1)
          (fun st1 b hb x hx => h st1 b (List.mem_cons_of_mem _ hb) x hx)
          x hx

/-- In a non-fatal run the spawns are a prelude followed by the batch
spawns. -/
theorem run_install_spawns_nonfatal (env : Env) (apps : List App)
    (h : NonFatal env) :
    ∃ pres, (run_install env apps).2.1 =
      pres ++ (runBatches env apps apps.length).2.1 := by
  rcases hH : env.hasHomebrew
  · rcases h with h | h
    · rw [hH] at h; cases h
    · rcases hbe : bootstrap_homebrew env with ⟨hsp, hms, hres⟩
      rw [hbe] at h
      simp only at h
      exact ⟨hsp, by simp [run_install, hH, hbe, h]⟩
  · rcases hrc : run_command env "brew" ["update"] with ⟨usp, ums, ures⟩
    exact ⟨usp, by simp [run_install, hH, hrc]⟩

/-- Membership in the catch-all loop messages gives membership in the
run's messages. -/
theorem mem_run_of_mem_oLoop (env : Env) (apps : List App)
    (hnf : NonFatal env) (x : InstallMessage)
    (hx : x ∈ (runLoop (otherStep env apps.length)
      (stC env apps apps.length) (oBatch apps)).2.2) :
    x ∈ (run_install env apps).2.2 := by
  obtain ⟨prelude, hmsgs, -, -⟩ := run_install_nonfatal env apps hnf
  rw [hmsgs, runBatches_eq]
  simp [hx]

/-- Membership in the formula loop messages gives membership in the run's
messages. -/
theorem mem_run_of_mem_fLoop (env : Env) (apps : List App)
    (hnf : NonFatal env) (x : InstallMessage)
    (hx : x ∈ (runLoop (formulaStep env apps.length)
      ⟨InstallSummary.default, 0⟩ (fBatch apps)).2.2) :
    x ∈ (run_install env apps).2.2 := by
  obtain ⟨prelude, hmsgs, -, -⟩ := run_install_nonfatal env apps hnf
  rw [hmsgs, runBatches_eq]
  simp [hx]

/-- Membership in the cask loop messages gives membership in the run's
messages. -/
theorem mem_run_of_mem_cLoop (env : Env) (apps : List App)
    (hnf : NonFatal env) (x : InstallMessage)
    (hx : x ∈ (runLoop (caskStep env apps.length)
      (stF env apps apps.length) (cBatch apps)).2.2) :
    x ∈ (run_install env apps).2.2 := by
  obtain ⟨prelude, hmsgs, -, -⟩ := run_install_nonfatal env apps hnf
  rw [hmsgs, runBatches_eq]
  simp [hx]


/-- C10: for a directive whose mechanism is neither a Homebrew formula nor
a cask, the executor has no already-satisfied predicate (it is false by
definition), spawns the installer invocation unconditionally (the item's
iteration spawns exactly the installer), the item yields a succeeded or a
failed event and never a skipped event, and consequently every skipped
summary entry of any run carries the reason "Already installed". -/
theorem other_mechanisms_never_skipped (env : Env) (apps : List App)
    (hnf : NonFatal env) (hnodup : (apps.map (·.name)).Nodup)
    (app : App) (happ : app ∈ apps)
    (hother : app.install_method.isBrew = false ∧
      app.install_method.isBrewCask = false) :
    alreadySatisfied env app = false ∧
    (∀ st, (otherStep env apps.length st app).2.1 =
      [installerSpawnOf app.install_method]) ∧
    installerSpawnOf app.install_method ∈ (run_install env apps).2.1 ∧
    (∃ t ∈ (run_install env apps).2.2,
      t = InstallMessage.packageSuccess app.name 0 ∨
      ∃ e, t = InstallMessage.packageFailed app.name e) ∧
    (∀ r, InstallMessage.packageSkipped app.name r ∉
      (run_install env apps).2.2) ∧
    ∀ pr ∈ (run_install env apps).1.skipped, pr.2 = "Already installed" := by
  have hbo : (!app.install_method.isBrew &&
      !app.install_method.isBrewCask) = true := by
    simp [hother.1, hother.2]
  have happO : app ∈ oBatch apps := List.mem_filter.2 ⟨happ, hbo⟩
  refine ⟨?_, ?_, ?_, ?_, ?_, (run_install_summary_pieces env apps hnf).2⟩
  · rcases hm : app.install_method <;> rw [hm] at hother <;>
      simp_all [alreadySatisfied, InstallMethod.isBrew,
        InstallMethod.isBrewCask]
  · intro st
    rw [otherStep_spawns, install_app_spawns]
  · obtain ⟨pres, hsp⟩ := run_install_spawns_nonfatal env apps hnf
    rw [hsp, runBatches_eq]
    have hmem : installerSpawnOf app.install_method ∈
        (runLoop (otherStep env apps.length) (stC env apps apps.length)
          (oBatch apps)).2.1 :=
      runLoop_spawn_mem _ (oBatch apps) _ app happO _
        (fun st1 => by
          rw [otherStep_spawns, install_app_spawns]; simp)
    simp [hmem]
  · rcases hr : install_app env app with ⟨isp, ims, res⟩
    rcases res with e | u
    · refine ⟨InstallMessage.packageFailed app.name e, ?_, Or.inr ⟨e, rfl⟩⟩
      apply mem_run_of_mem_oLoop env apps hnf
      apply runLoop_msg_mem _ (oBatch apps) _ app happO
      intro st1
      simp [otherStep, hr]
    · cases u
      refine ⟨InstallMessage.packageSuccess app.name 0, ?_, Or.inl rfl⟩
      apply mem_run_of_mem_oLoop env apps hnf
      apply runLoop_msg_mem _ (oBatch apps) _ app happO
      intro st1
      simp [otherStep, hr]
  · intro r hmem
    obtain ⟨prelude, hmsgs, -, hpre⟩ := run_install_nonfatal env apps hnf
    rw [hmsgs, runBatches_eq] at hmem
    rcases List.mem_append.1 hmem with hmem | hmem
    · have := (hpre _ hmem).1
      simp [InstallMessage.isItemEvent] at this
    rcases List.mem_append.1 hmem with hmem | hmem
    · have := mem_hdr hmem
      simp at this
    rcases List.mem_append.1 hmem with hmem | hmem
    · have h4 := (runLoop_flavour apps.length _ (fBatch apps)
        ⟨InstallSummary.default, 0⟩ (fBatch_spec env apps apps.length)
        _ hmem).2.2.2 app.name (by simp [InstallMessage.nameOf])
      exact batch_names_disjoint hnodup brew_other_disjoint app.name h4
        (List.mem_map_of_mem _ happO)
    rcases List.mem_append.1 hmem with hmem | hmem
    · have := mem_hdr hmem
      simp at this
    rcases List.mem_append.1 hmem with hmem | hmem
    · have h4 := (runLoop_flavour apps.length _ (cBatch apps)
        (stF env apps apps.length) (cBatch_spec env apps apps.length)
        _ hmem).2.2.2 app.name (by simp [InstallMessage.nameOf])
      exact batch_names_disjoint hnodup cask_other_disjoint app.name h4
        (List.mem_map_of_mem _ happO)
    rcases List.mem_append.1 hmem with hmem | hmem
    · have := mem_hdr hmem
      simp at this
    rcases List.mem_append.1 hmem with hmem | hmem
    · have := runLoop_no_skip _ (oBatch apps) (stC env apps apps.length)
        (fun st1 a ha => otherStep_no_skip env apps.length st1 a) _ hmem
      simp [InstallMessage.isSkippedEvent] at this
    · simp at hmem

/-- Witness for C10: the cargo item of a concrete run. -/
theorem other_mechanisms_never_skipped_witness :
    alreadySatisfied envNoneInstalled appZoxide = false ∧
    (∀ st, (otherStep envNoneInstalled
        ([appRipgrep, appZoxide] : List App).length st appZoxide).2.1 =
      [installerSpawnOf appZoxide.install_method]) ∧
    installerSpawnOf appZoxide.install_method ∈
      (run_install envNoneInstalled [appRipgrep, appZoxide]).2.1 ∧
    (∃ t ∈ (run_install envNoneInstalled [appRipgrep, appZoxide]).2.2,
      t = InstallMessage.packageSuccess appZoxide.name 0 ∨
      ∃ e, t = InstallMessage.packageFailed appZoxide.name e) ∧
    (∀ r, InstallMessage.packageSkipped appZoxide.name r ∉
      (run_install envNoneInstalled [appRipgrep, appZoxide]).2.2) ∧
    ∀ pr ∈ (run_install envNoneInstalled [appRipgrep, appZoxide]).1.skipped,
      pr.2 = "Already installed" :=
  other_mechanisms_never_skipped envNoneInstalled [appRipgrep, appZoxide]
    (Or.inl rfl) (by decide) appZoxide (by decide) (by decide)


/-- Evaluation of the formula iteration when the item is already
installed: one query spawn, no installer run, events
started–skipped–progress. -/
theorem formulaStep_satisfied_eq (env : Env) (total : Nat) (st : RunState)
    (app : App) (pkg : String) (hm : app.install_method = .brew pkg)
    (hsat : (is_brew_installed env pkg).2 = true) :
    formulaStep env total st app =
      ({ summary := { st.summary with
            skipped := st.summary.skipped ++ [(app.name, "Already installed")] },
          completed := st.completed + 1 },
        [⟨"brew", ["list", "--formula", pkg]⟩],
        [InstallMessage.packageStart app.name s!"brew install {pkg}",
         InstallMessage.packageSkipped app.name "Already installed",
         InstallMessage.progress (st.completed + 1) total]) := by
  rcases hq : is_brew_installed env pkg with ⟨qs, b⟩
  have hqs : qs = [⟨"brew", ["list", "--formula", pkg]⟩] := by
    have h : (is_brew_installed env pkg).1 =
        [⟨"brew", ["list", "--formula", pkg]⟩] := rfl
    rw [hq] at h
    exact h
  rw [hq] at hsat
  simp only at hsat
  subst hsat
  subst hqs
  simp [formulaStep, hm, hq]

/-- Evaluation of the cask iteration when the item is already installed:
one query spawn, no installer run, events started–skipped–progress. -/
theorem caskStep_satisfied_eq (env : Env) (total : Nat) (st : RunState)
    (app : App) (pkg : String) (hm : app.install_method = .brewCask pkg)
    (hsat : (is_brew_cask_installed env pkg).2 = true) :
    caskStep env total st app =
      ({ summary := { st.summary with
            skipped := st.summary.skipped ++ [(app.name, "Already installed")] },
          completed := st.completed + 1 },
        [⟨"brew", ["list", "--cask", pkg]⟩],
        [InstallMessage.packageStart app.name s!"brew install --cask {pkg}",
         InstallMessage.packageSkipped app.name "Already installed",
         InstallMessage.progress (st.completed + 1) total]) := by
  rcases hq : is_brew_cask_installed env pkg with ⟨qs, b⟩
  have hqs : qs = [⟨"brew", ["list", "--cask", pkg]⟩] := by
    have h : (is_brew_cask_installed env pkg).1 =
        [⟨"brew", ["list", "--cask", pkg]⟩] := rfl
    rw [hq] at h
    exact h
  rw [hq] at hsat
  simp only at hsat
  subst hsat
  subst hqs
  simp [caskStep, hm, hq]

/-- In a batch loop, every event named after a member whose iteration
emits the started–skipped–progress shape is that member's started event
or its skipped event. -/
theorem runLoop_satisfied_terminals (total : Nat)
    (step : RunState → App → RunState × List Spawn × List InstallMessage)
    (batch : List App) (st : RunState)
    (hspec : ∀ st1 a, a ∈ batch → ItemStepSpec total step st1 a)
    (hnodup : (batch.map (·.name)).Nodup)
    (app : App) (mth : String) (happ : app ∈ batch)
    (hstep : ∀ st1, (step st1 app).2.2 =
      [InstallMessage.packageStart app.name mth,
       InstallMessage.packageSkipped app.name "Already installed",
       InstallMessage.progress (st1.completed + 1) total]) :
    ∀ x ∈ (runLoop step st batch).2.2,
      x.nameOf = some app.name →
      x.isStart = true ∨
        x = InstallMessage.packageSkipped app.name "Already installed" := by
  induction batch generalizing st with
  | nil => simp [runLoop]
  | cons a rest ih =>
      rw [List.map_cons, List.nodup_cons] at hnodup
      intro x hx hn
      rw [runLoop_cons] at hx
      rcases List.mem_append.1 hx with hx | hx
      · rcases List.mem_cons.1 happ with rfl | happ2
        · rw [hstep st] at hx
          rcases hx with _ | ⟨_, hx⟩
          · exact Or.inl rfl
          · rcases hx with _ | ⟨_, hx⟩
            · exact Or.inr rfl
            · rcases hx with _ | ⟨_, hx⟩
              · simp [InstallMessage.nameOf] at hn
              · cases hx
        · have hname : a.name ≠ app.name := fun h =>
            hnodup.1 (h ▸ List.mem_map_of_mem _ happ2)
          obtain ⟨-, hflav, -, -⟩ := (hspec st a (by simp)).1
          obtain ⟨-, -, -, h4⟩ := hflav x hx
          exact absurd (h4 app.name hn).symm hname
      · rcases List.mem_cons.1 happ with rfl | happ2
        · have hrest := runLoop_flavour total _ rest
            ((step st app).1)
            (fun st1 b hb => hspec st1 b (List.mem_cons_of_mem _ hb))
          obtain ⟨-, -, -, h4⟩ := hrest x hx
          exact absurd (h4 app.name hn) hnodup.1
        · exact ih ((step st a).1)
            (fun st1 b hb => hspec st1 b (List.mem_cons_of_mem _ hb))
            hnodup.2 happ2 x hx hn

/-- C1 (amended): an already-satisfied item — a Homebrew formula whose
`brew list --formula` query succeeds, or a Homebrew cask whose
`brew list --cask` query succeeds — does get a started event, then a
skipped event with reason "Already installed"; it never gets a succeeded
or failed event, and its loop iteration spawns only the `brew list`
query — the installer is not invoked for it. -/
theorem satisfied_item_behaviour (env : Env) (apps : List App)
    (hnf : NonFatal env) (hnodup : (apps.map (·.name)).Nodup)
    (app : App) (pkg : String) (happ : app ∈ apps)
    (hm : app.install_method = InstallMethod.brew pkg ∨
      app.install_method = InstallMethod.brewCask pkg)
    (hsat : alreadySatisfied env app = true) :
    InstallMessage.packageSkipped app.name "Already installed" ∈
      (run_install env apps).2.2 ∧
    (∀ d, InstallMessage.packageSuccess app.name d ∉
      (run_install env apps).2.2) ∧
    (∀ e, InstallMessage.packageFailed app.name e ∉
      (run_install env apps).2.2) ∧
    (app.install_method = InstallMethod.brew pkg →
      InstallMessage.packageStart app.name s!"brew install {pkg}" ∈
        (run_install env apps).2.2 ∧
      ∀ st, (formulaStep env apps.length st app).2.1 =
        [⟨"brew", ["list", "--formula", pkg]⟩]) ∧
    (app.install_method = InstallMethod.brewCask pkg →
      InstallMessage.packageStart app.name s!"brew install --cask {pkg}" ∈
        (run_install env apps).2.2 ∧
      ∀ st, (caskStep env apps.length st app).2.1 =
        [⟨"brew", ["list", "--cask", pkg]⟩]) := by
  rcases hm with hm | hm
  · have hsat2 : (is_brew_installed env pkg).2 = true := by
      simpa [alreadySatisfied, hm] using hsat
    have hb : app.install_method.isBrew = true := by
      simp [hm, InstallMethod.isBrew]
    have happF : app ∈ fBatch apps := List.mem_filter.2 ⟨happ, hb⟩
    have hstep : ∀ st1, (formulaStep env apps.length st1 app).2.2 =
        [InstallMessage.packageStart app.name s!"brew install {pkg}",
         InstallMessage.packageSkipped app.name "Already installed",
         InstallMessage.progress (st1.completed + 1) apps.length] := by
      intro st1
      rw [formulaStep_satisfied_eq env apps.length st1 app pkg hm hsat2]
    have hnotin : ∀ x : InstallMessage, x.nameOf = some app.name →
        x.isStart = false →
        (∀ r, x ≠ InstallMessage.packageSkipped app.name r) →
        x ∉ (run_install env apps).2.2 := by
      intro x hn hns hnsk hmem
      obtain ⟨prelude, hmsgs, -, hpre⟩ := run_install_nonfatal env apps hnf
      rw [hmsgs, runBatches_eq] at hmem
      rcases List.mem_append.1 hmem with hmem | hmem
      · have := nameOf_none_of_not_item x (hpre _ hmem).1
        rw [this] at hn
        cases hn
      rcases List.mem_append.1 hmem with hmem | hmem
      · rw [mem_hdr hmem] at hn
        simp [InstallMessage.nameOf] at hn
      rcases List.mem_append.1 hmem with hmem | hmem
      · rcases runLoop_satisfied_terminals apps.length
          (formulaStep env apps.length) (fBatch apps)
          ⟨InstallSummary.default, 0⟩ (fBatch_spec env apps apps.length)
          (batch_nodup hnodup _) app _ happF hstep x hmem hn with h | h
        · rw [hns] at h; cases h
        · exact hnsk "Already installed" h
      rcases List.mem_append.1 hmem with hmem | hmem
      · rw [mem_hdr hmem] at hn
        simp [InstallMessage.nameOf] at hn
      rcases List.mem_append.1 hmem with hmem | hmem
      · have h4 := (runLoop_flavour apps.length _ (cBatch apps)
          (stF env apps apps.length) (cBatch_spec env apps apps.length)
          _ hmem).2.2.2 app.name hn
        exact batch_names_disjoint hnodup brew_cask_disjoint app.name
          (List.mem_map_of_mem _ happF) h4
      rcases List.mem_append.1 hmem with hmem | hmem
      · rw [mem_hdr hmem] at hn
        simp [InstallMessage.nameOf] at hn
      rcases List.mem_append.1 hmem with hmem | hmem
      · have h4 := (runLoop_flavour apps.length _ (oBatch apps)
          (stC env apps apps.length) (oBatch_spec env apps apps.length)
          _ hmem).2.2.2 app.name hn
        exact batch_names_disjoint hnodup brew_other_disjoint app.name
          (List.mem_map_of_mem _ happF) h4
      · simp at hmem
        rw [hmem] at hn
        cases hn
    refine ⟨?_, ?_, ?_, ?_, ?_⟩
    · apply mem_run_of_mem_fLoop env apps hnf
      apply runLoop_msg_mem _ (fBatch apps) _ app happF
      intro st1
      rw [hstep st1]
      simp
    · intro d
      exact hnotin _ rfl rfl (fun r h => by cases h)
    · intro e
      exact hnotin _ rfl rfl (fun r h => by cases h)
    · intro _
      refine ⟨?_, ?_⟩
      · apply mem_run_of_mem_fLoop env apps hnf
        apply runLoop_msg_mem _ (fBatch apps) _ app happF
        intro st1
        rw [hstep st1]
        simp
      · intro st
        rw [formulaStep_satisfied_eq env apps.length st app pkg hm hsat2]
    · intro h
      rw [hm] at h
      exact InstallMethod.noConfusion h
  · have hsat2 : (is_brew_cask_installed env pkg).2 = true := by
      simpa [alreadySatisfied, hm] using hsat
    have hc : app.install_method.isBrewCask = true := by
      simp [hm, InstallMethod.isBrewCask]
    have happC : app ∈ cBatch apps := List.mem_filter.2 ⟨happ, hc⟩
    have hstep : ∀ st1, (caskStep env apps.length st1 app).2.2 =
        [InstallMessage.packageStart app.name s!"brew install --cask {pkg}",
         InstallMessage.packageSkipped app.name "Already installed",
         InstallMessage.progress (st1.completed + 1) apps.length] := by
      intro st1
      rw [caskStep_satisfied_eq env apps.length st1 app pkg hm hsat2]
    have hnotin : ∀ x : InstallMessage, x.nameOf = some app.name →
        x.isStart = false →
        (∀ r, x ≠ InstallMessage.packageSkipped app.name r) →
        x ∉ (run_install env apps).2.2 := by
      intro x hn hns hnsk hmem
      obtain ⟨prelude, hmsgs, -, hpre⟩ := run_install_nonfatal env apps hnf
      rw [hmsgs, runBatches_eq] at hmem
      rcases List.mem_append.1 hmem with hmem | hmem
      · have := nameOf_none_of_not_item x (hpre _ hmem).1
        rw [this] at hn
        cases hn
      rcases List.mem_append.1 hmem with hmem | hmem
      · rw [mem_hdr hmem] at hn
        simp [InstallMessage.nameOf] at hn
      rcases List.mem_append.1 hmem with hmem | hmem
      · have h4 := (runLoop_flavour apps.length _ (fBatch apps)
          ⟨InstallSummary.default, 0⟩ (fBatch_spec env apps apps.length)
          _ hmem).2.2.2 app.name hn
        exact batch_names_disjoint hnodup brew_cask_disjoint app.name h4
          (List.mem_map_of_mem _ happC)
      rcases List.mem_append.1 hmem with hmem | hmem
      · rw [mem_hdr hmem] at hn
        simp [InstallMessage.nameOf] at hn
      rcases List.mem_append.1 hmem with hmem | hmem
      · rcases runLoop_satisfied_terminals apps.length
          (caskStep env apps.length) (cBatch apps)
          (stF env apps apps.length) (cBatch_spec env apps apps.length)
          (batch_nodup hnodup _) app _ happC hstep x hmem hn with h | h
        · rw [hns] at h; cases h
        · exact hnsk "Already installed" h
      rcases List.mem_append.1 hmem with hmem | hmem
      · rw [mem_hdr hmem] at hn
        simp [InstallMessage.nameOf] at hn
      rcases List.mem_append.1 hmem with hmem | hmem
      · have h4 := (runLoop_flavour apps.length _ (oBatch apps)
          (stC env apps apps.length) (oBatch_spec env apps apps.length)
          _ hmem).2.2.2 app.name hn
        exact batch_names_disjoint hnodup cask_other_disjoint app.name
          (List.mem_map_of_mem _ happC) h4
      · simp at hmem
        rw [hmem] at hn
        cases hn
    refine ⟨?_, ?_, ?_, ?_, ?_⟩
    · apply mem_run_of_mem_cLoop env apps hnf
      apply runLoop_msg_mem _ (cBatch apps) _ app happC
      intro st1
      rw [hstep st1]
      simp
    · intro d
      exact hnotin _ rfl rfl (fun r h => by cases h)
    · intro e
      exact hnotin _ rfl rfl (fun r h => by cases h)
    · intro h
      rw [hm] at h
      exact InstallMethod.noConfusion h
    · intro _
      refine ⟨?_, ?_⟩
      · apply mem_run_of_mem_cLoop env apps hnf
        apply runLoop_msg_mem _ (cBatch apps) _ app happC
        intro st1
        rw [hstep st1]
        simp
      · intro st
        rw [caskStep_satisfied_eq env apps.length st app pkg hm hsat2]

/-- Witness for C1 (amended) at a concrete satisfied formula item and a
concrete satisfied cask item. -/
theorem satisfied_item_behaviour_witness :
    (InstallMessage.packageSkipped "ripgrep" "Already installed" ∈
       (run_install envAllOk [appRipgrep]).2.2 ∧
     (∀ d, InstallMessage.packageSuccess "ripgrep" d ∉
       (run_install envAllOk [appRipgrep]).2.2) ∧
     (∀ e, InstallMessage.packageFailed "ripgrep" e ∉
       (run_install envAllOk [appRipgrep]).2.2) ∧
     InstallMessage.packageStart "ripgrep" "brew install ripgrep" ∈
       (run_install envAllOk [appRipgrep]).2.2 ∧
     (∀ st, (formulaStep envAllOk ([appRipgrep] : List App).length st
         appRipgrep).2.1 =
       [⟨"brew", ["list", "--formula", "ripgrep"]⟩])) ∧
    (InstallMessage.packageSkipped "Rectangle" "Already installed" ∈
       (run_install envAllOk [appRectangle]).2.2 ∧
     InstallMessage.packageStart "Rectangle" "brew install --cask rectangle" ∈
       (run_install envAllOk [appRectangle]).2.2 ∧
     ∀ st, (caskStep envAllOk ([appRectangle] : List App).length st
         appRectangle).2.1 =
       [⟨"brew", ["list", "--cask", "rectangle"]⟩]) := by
  have h1 := satisfied_item_behaviour envAllOk [appRipgrep] (Or.inl rfl)
    (by decide) appRipgrep "ripgrep" (by decide) (Or.inl rfl) (by decide)
  have h2 := satisfied_item_behaviour envAllOk [appRectangle] (Or.inl rfl)
    (by decide) appRectangle "rectangle" (by decide) (Or.inr rfl) (by decide)
  obtain ⟨hs1, hd1, he1, hb1, -⟩ := h1
  obtain ⟨hbs1, hbq1⟩ := hb1 rfl
  obtain ⟨hs2, -, -, -, hc2⟩ := h2
  obtain ⟨hcs2, hcq2⟩ := hc2 rfl
  exact ⟨⟨hs1, hd1, he1, hbs1, hbq1⟩, ⟨hs2, hcs2, hcq2⟩⟩

/-- Evaluation of the classification of `run_command` on a failing
process: the error string is the last line of stderr (possibly empty) or
the generic exit-code message when stderr is empty. -/
theorem run_command_failure (env : Env) (p : String) (args : List String)
    (out : CmdOutput) (h : env.run p args = .ran out)
    (hf : out.success = false) :
    (run_command env p args).2.2 = Except.error
      (if out.stderr.isEmpty then s!"exited with code {out.statusDisplay}"
       else ((rustLines out.stderr).getLast?).getD "unknown error") := by
  simp [run_command, h, hf]
  split <;> rfl

/-- Evaluation of `install_via_script` on a failing script run: the error
is "Script failed:" followed by the trimmed stderr. -/
theorem install_via_script_failure (env : Env) (url : String)
    (out : CmdOutput)
    (h : env.run "/bin/bash" ["-c", s!"curl -fsSL {url} | sh"] = .ran out)
    (hf : out.success = false) :
    (install_via_script env url).2.2 =
      Except.error s!"Script failed: {rustTrim out.stderr}" := by
  simp [install_via_script, h, hf]

/-- Evaluation of `run_shell_command` on a failing shell run: the error is
"Command failed:" followed by the trimmed stderr. -/
theorem run_shell_command_failure (env : Env) (cmd : String)
    (out : CmdOutput) (h : env.run "/bin/bash" ["-c", cmd] = .ran out)
    (hf : out.success = false) :
    (run_shell_command env cmd).2.2 =
      Except.error s!"Command failed: {rustTrim out.stderr}" := by
  simp [run_shell_command, h, hf]

/-- A failing `install_app` for a catch-all directive puts exactly its
error string in a failed event of the run. -/
theorem other_failed_mem (env : Env) (apps : List App) (hnf : NonFatal env)
    (app : App) (happ : app ∈ apps)
    (hbo : (!app.install_method.isBrew &&
      !app.install_method.isBrewCask) = true)
    (e : String) (herr : (install_app env app).2.2 = Except.error e) :
    InstallMessage.packageFailed app.name e ∈ (run_install env apps).2.2 := by
  have happO : app ∈ oBatch apps := List.mem_filter.2 ⟨happ, hbo⟩
  apply mem_run_of_mem_oLoop env apps hnf
  apply runLoop_msg_mem _ (oBatch apps) _ app happO
  intro st1
  rcases hr : install_app env app with ⟨isp, ims, res⟩
  rw [hr] at herr
  simp only at herr
  subst herr
  simp [otherStep, hr]

/-- A failing `brew install` for an unsatisfied formula directive puts the
`run_command` error string in a failed event of the run. -/
theorem formula_failed_mem (env : Env) (apps : List App)
    (hnf : NonFatal env) (app : App) (pkg : String) (happ : app ∈ apps)
    (hm : app.install_method = InstallMethod.brew pkg)
    (hns : (is_brew_installed env pkg).2 = false) (e : String)
    (herr : (run_command env "brew" ["install", pkg]).2.2 =
      Except.error e) :
    InstallMessage.packageFailed app.name e ∈ (run_install env apps).2.2 := by
  have hb : app.install_method.isBrew = true := by
    simp [hm, InstallMethod.isBrew]
  have happF : app ∈ fBatch apps := List.mem_filter.2 ⟨happ, hb⟩
  apply mem_run_of_mem_fLoop env apps hnf
  apply runLoop_msg_mem _ (fBatch apps) _ app happF
  intro st1
  rcases hq : is_brew_installed env pkg with ⟨qsp, b⟩
  have hb2 : b = false := by rw [hq] at hns; exact hns
  subst hb2
  rcases hr : run_command env "brew" ["install", pkg] with ⟨isp, ims, res⟩
  rw [hr] at herr
  simp only at herr
  subst herr
  simp [formulaStep, hm, hq, hr]

/-- A failing `brew install --cask` for an unsatisfied cask directive puts
the `run_command` error string in a failed event of the run. -/
theorem cask_failed_mem (env : Env) (apps : List App)
    (hnf : NonFatal env) (app : App) (pkg : String) (happ : app ∈ apps)
    (hm : app.install_method = InstallMethod.brewCask pkg)
    (hns : (is_brew_cask_installed env pkg).2 = false) (e : String)
    (herr : (run_command env "brew" ["install", "--cask", pkg]).2.2 =
      Except.error e) :
    InstallMessage.packageFailed app.name e ∈ (run_install env apps).2.2 := by
  have hc : app.install_method.isBrewCask = true := by
    simp [hm, InstallMethod.isBrewCask]
  have happC : app ∈ cBatch apps := List.mem_filter.2 ⟨happ, hc⟩
  apply mem_run_of_mem_cLoop env apps hnf
  apply runLoop_msg_mem _ (cBatch apps) _ app happC
  intro st1
  rcases hq : is_brew_cask_installed env pkg with ⟨qsp, b⟩
  have hb2 : b = false := by rw [hq] at hns; exact hns
  subst hb2
  rcases hr : run_command env "brew" ["install", "--cask", pkg] with
    ⟨isp, ims, res⟩
  rw [hr] at herr
  simp only at herr
  subst herr
  simp [caskStep, hm, hq, hr]

/-- C5 (amended): when an installer process exits with non-zero status the
failed event's error string depends on the mechanism.  For every mechanism
run through `run_command` — a Homebrew formula or cask whose satisfied
check failed, cargo, npm, pip, go and apt — it is the last line, possibly
empty, of the process's standard-error stream when that stream is
non-empty, and the generic "exited with code" message carrying the status
display when it is empty; the script mechanism instead reports
"Script failed:" and the manual shell mechanism "Command failed:", each
followed by the trimmed stderr. -/
theorem failed_error_string (env : Env) (apps : List App)
    (hnf : NonFatal env) (app : App) (out : CmdOutput) (happ : app ∈ apps)
    (hfail : out.success = false) :
    (∀ pkg, app.install_method = InstallMethod.brew pkg →
      (is_brew_installed env pkg).2 = false →
      env.run "brew" ["install", pkg] = .ran out →
      InstallMessage.packageFailed app.name
        (if out.stderr.isEmpty then s!"exited with code {out.statusDisplay}"
         else ((rustLines out.stderr).getLast?).getD "unknown error") ∈
        (run_install env apps).2.2) ∧
    (∀ pkg, app.install_method = InstallMethod.brewCask pkg →
      (is_brew_cask_installed env pkg).2 = false →
      env.run "brew" ["install", "--cask", pkg] = .ran out →
      InstallMessage.packageFailed app.name
        (if out.stderr.isEmpty then s!"exited with code {out.statusDisplay}"
         else ((rustLines out.stderr).getLast?).getD "unknown error") ∈
        (run_install env apps).2.2) ∧
    (∀ pkg, app.install_method = InstallMethod.cargo pkg →
      env.run "cargo" ["install", pkg] = .ran out →
      InstallMessage.packageFailed app.name
        (if out.stderr.isEmpty then s!"exited with code {out.statusDisplay}"
         else ((rustLines out.stderr).getLast?).getD "unknown error") ∈
        (run_install env apps).2.2) ∧
    (∀ pkg, app.install_method = InstallMethod.npm pkg →
      env.run "npm" ["install", "-g", pkg] = .ran out →
      InstallMessage.packageFailed app.name
        (if out.stderr.isEmpty then s!"exited with code {out.statusDisplay}"
         else ((rustLines out.stderr).getLast?).getD "unknown error") ∈
        (run_install env apps).2.2) ∧
    (∀ pkg, app.install_method = InstallMethod.pip pkg →
      env.run "pip3" ["install", pkg] = .ran out →
      InstallMessage.packageFailed app.name
        (if out.stderr.isEmpty then s!"exited with code {out.statusDisplay}"
         else ((rustLines out.stderr).getLast?).getD "unknown error") ∈
        (run_install env apps).2.2) ∧
    (∀ pkg, app.install_method = InstallMethod.go pkg →
      env.run "go" ["install", pkg] = .ran out →
      InstallMessage.packageFailed app.name
        (if out.stderr.isEmpty then s!"exited with code {out.statusDisplay}"
         else ((rustLines out.stderr).getLast?).getD "unknown error") ∈
        (run_install env apps).2.2) ∧
    (∀ pkg, app.install_method = InstallMethod.apt pkg →
      env.run "sudo" ["apt", "install", "-y", pkg] = .ran out →
      InstallMessage.packageFailed app.name
        (if out.stderr.isEmpty then s!"exited with code {out.statusDisplay}"
         else ((rustLines out.stderr).getLast?).getD "unknown error") ∈
        (run_install env apps).2.2) ∧
    (∀ url, app.install_method = InstallMethod.script url →
      env.run "/bin/bash" ["-c", s!"curl -fsSL {url} | sh"] = .ran out →
      InstallMessage.packageFailed app.name
        s!"Script failed: {rustTrim out.stderr}" ∈
        (run_install env apps).2.2) ∧
    (∀ cmd, app.install_method = InstallMethod.manual cmd →
      env.run "/bin/bash" ["-c", cmd] = .ran out →
      InstallMessage.packageFailed app.name
        s!"Command failed: {rustTrim out.stderr}" ∈
        (run_install env apps).2.2) := by
  refine ⟨?_, ?_, ?_, ?_, ?_, ?_, ?_, ?_, ?_⟩
  · intro pkg hm hns hrun
    exact formula_failed_mem env apps hnf app pkg happ hm hns _
      (run_command_failure env "brew" ["install", pkg] out hrun hfail)
  · intro pkg hm hns hrun
    exact cask_failed_mem env apps hnf app pkg happ hm hns _
      (run_command_failure env "brew" ["install", "--cask", pkg] out hrun
        hfail)
  · intro pkg hm hrun
    have hia : install_app env app =
        run_command env "cargo" ["install", pkg] := by
      simp [install_app, hm]
    refine other_failed_mem env apps hnf app happ
      (by simp [hm, InstallMethod.isBrew, InstallMethod.isBrewCask]) _ ?_
    rw [hia]
    exact run_command_failure env "cargo" ["install", pkg] out hrun hfail
  · intro pkg hm hrun
    have hia : install_app env app =
        run_command env "npm" ["install", "-g", pkg] := by
      simp [install_app, hm]
    refine other_failed_mem env apps hnf app happ
      (by simp [hm, InstallMethod.isBrew, InstallMethod.isBrewCask]) _ ?_
    rw [hia]
    exact run_command_failure env "npm" ["install", "-g", pkg] out hrun hfail
  · intro pkg hm hrun
    have hia : install_app env app =
        run_command env "pip3" ["install", pkg] := by
      simp [install_app, hm]
    refine other_failed_mem env apps hnf app happ
      (by simp [hm, InstallMethod.isBrew, InstallMethod.isBrewCask]) _ ?_
    rw [hia]
    exact run_command_failure env "pip3" ["install", pkg] out hrun hfail
  · intro pkg hm hrun
    have hia : install_app env app =
        run_command env "go" ["install", pkg] := by
      simp [install_app, hm]
    refine other_failed_mem env apps hnf app happ
      (by simp [hm, InstallMethod.isBrew, InstallMethod.isBrewCask]) _ ?_
    rw [hia]
    exact run_command_failure env "go" ["install", pkg] out hrun hfail
  · intro pkg hm hrun
    have hia : install_app env app =
        run_command env "sudo" ["apt", "install", "-y", pkg] := by
      simp [install_app, hm]
    refine other_failed_mem env apps hnf app happ
      (by simp [hm, InstallMethod.isBrew, InstallMethod.isBrewCask]) _ ?_
    rw [hia]
    exact run_command_failure env "sudo" ["apt", "install", "-y", pkg] out
      hrun hfail
  · intro url hm hrun
    have hia : install_app env app = install_via_script env url := by
      simp [install_app, hm]
    refine other_failed_mem env apps hnf app happ
      (by simp [hm, InstallMethod.isBrew, InstallMethod.isBrewCask]) _ ?_
    rw [hia]
    exact install_via_script_failure env url out hrun hfail
  · intro cmd hm hrun
    have hia : install_app env app = run_shell_command env cmd := by
      simp [install_app, hm]
    refine other_failed_mem env apps hnf app happ
      (by simp [hm, InstallMethod.isBrew, InstallMethod.isBrewCask]) _ ?_
    rw [hia]
    exact run_shell_command_failure env cmd out hrun hfail

/-- Witness for C5 (amended): a failing cargo install reports the last
stderr line — empty here, the stderr being "error" followed by a blank
line — and a failing script install reports "Script failed:" with the
trimmed stderr. -/
theorem failed_error_string_witness :
    InstallMessage.packageFailed appZoxide.name
      (((rustLines "error\n\n").getLast?).getD "unknown error") ∈
      (run_install envStderrTrailing [appZoxide]).2.2 ∧
    InstallMessage.packageFailed appUv.name "Script failed: boom" ∈
      (run_install envShellFail [appUv]).2.2 := by
  constructor
  · exact (failed_error_string envStderrTrailing [appZoxide] (Or.inl rfl)
      appZoxide ⟨false, "exit status: 1", "", "error\n\n"⟩ (by decide)
      rfl).2.2.1 "zoxide" rfl rfl
  · exact (failed_error_string envShellFail [appUv] (Or.inl rfl)
      appUv ⟨false, "exit status: 127", "", " boom \n"⟩ (by decide)
      rfl).2.2.2.2.2.2.2.1 "https://astral.sh/uv/install.sh" rfl rfl

/-- A lookup below the length succeeds. -/
theorem get?_isSome_of_lt {α : Type} {l : List α} {i : Nat}
    (h : i < l.length) : (l.get? i).isSome = true := by
  rw [List.get?_eq_get h]; rfl

/-- Value cycling never fails, whatever the cursor and direction. -/
theorem cycle_shell_option_isSome (m : AppModel) (forward : Bool) :
    (cycle_shell_option m forward).isSome = true := by
  unfold cycle_shell_option
  rcases hc : m.wizard.cursor_position with _ | _ | _ | _ | n <;>
    simp only [hc]
  · rcases hs : m.wizard.shell_config.shell <;> cases forward <;> rfl
  · rcases hs : m.wizard.shell_config.prompt <;> cases forward <;> rfl
  · rcases hs : m.wizard.shell_config.terminal <;> cases forward <;> rfl
  · rcases hs : m.wizard.shell_config.multiplexer with _ | t
    · cases forward <;> rfl
    · cases t <;> cases forward <;> rfl
  · rfl

/-- The current-list length is always computed (no out-of-range panic). -/
theorem get_current_list_len_isSome (catalog : List App) (m : AppModel) :
    (get_current_list_len catalog m).isSome = true := by
  unfold get_current_list_len
  rcases m.wizard.phase <;> simp only <;>
    first
      | rfl
      | (rw [Option.isSome_map']
         exact get?_isSome_of_lt (Nat.mod_lt _ (by decide)))

/-- The current-app lookup is always computed. -/
theorem get_current_app_id_isSome (catalog : List App) (m : AppModel) :
    (get_current_app_id catalog m).isSome = true := by
  unfold get_current_app_id
  rcases m.wizard.phase <;> simp only <;>
    first
      | rfl
      | (rw [Option.isSome_map']
         exact get?_isSome_of_lt (Nat.mod_lt _ (by decide)))

/-- Toggling the current app is always computed. -/
theorem toggle_current_app_isSome (catalog : List App) (m : AppModel) :
    (toggle_current_app catalog m).isSome = true := by
  unfold toggle_current_app
  rw [Option.isSome_map']
  exact get_current_app_id_isSome catalog m

/-- Selecting all in the current category is always computed. -/
theorem select_all_in_category_isSome (catalog : List App) (m : AppModel) :
    (select_all_in_category catalog m).isSome = true := by
  unfold select_all_in_category
  rw [Option.isSome_map']
  exact get?_isSome_of_lt (Nat.mod_lt _ (by decide))

/-- Deselecting all in the current category is always computed. -/
theorem deselect_all_in_category_isSome (catalog : List App)
    (m : AppModel) :
    (deselect_all_in_category catalog m).isSome = true := by
  unfold deselect_all_in_category
  rw [Option.isSome_map']
  exact get?_isSome_of_lt (Nat.mod_lt _ (by decide))

/-- The Identity-phase handler never fails. -/
theorem handle_identity_input_isSome (m : AppModel) (key : KeyCode) :
    (handle_identity_input m key).isSome = true := by
  unfold handle_identity_input
  cases key <;> simp only <;>
    first
      | rfl
      | (rcases m.wizard.input_field with _ | _ | _ | f <;> rfl)
      | skip
  · -- left
    split
    · rcases hs : m.wizard.identity.setup_type <;> rfl
    · rfl
  · -- right
    split
    · rcases hs : m.wizard.identity.setup_type <;> rfl
    · rfl
  · -- enter
    split <;> rfl

/-- The Shell-phase handler never fails. -/
theorem handle_shell_input_isSome (m : AppModel) (key : KeyCode) :
    (handle_shell_input m key).isSome = true := by
  unfold handle_shell_input
  cases key <;> simp only <;>
    first
      | rfl
      | exact cycle_shell_option_isSome m false
      | exact cycle_shell_option_isSome m true
      | skip
  repeat' split
  all_goals
    first
      | rfl
      | exact cycle_shell_option_isSome m false
      | exact cycle_shell_option_isSome m true

/-- The DevTools-phase handler never fails. -/
theorem handle_devtools_input_isSome (catalog : List App) (m : AppModel)
    (key : KeyCode) :
    (handle_devtools_input catalog m key).isSome = true := by
  unfold handle_devtools_input
  cases key <;> simp only <;>
    first
      | rfl
      | (rw [Option.isSome_map']
         exact get_current_list_len_isSome catalog m)
      | skip
  repeat' split
  all_goals
    first
      | rfl
      | (rw [Option.isSome_map']
         exact get_current_list_len_isSome catalog m)
      | exact toggle_current_app_isSome catalog m
      | exact select_all_in_category_isSome catalog m
      | exact deselect_all_in_category_isSome catalog m

/-- The Apps-phase handler never fails. -/
theorem handle_apps_input_isSome (catalog : List App) (m : AppModel)
    (key : KeyCode) :
    (handle_apps_input catalog m key).isSome = true := by
  unfold handle_apps_input
  cases key <;> simp only <;>
    first
      | rfl
      | (rw [Option.isSome_map']
         exact get_current_list_len_isSome catalog m)
      | skip
  repeat' split
  all_goals
    first
      | rfl
      | (rw [Option.isSome_map']
         exact get_current_list_len_isSome catalog m)
      | exact toggle_current_app_isSome catalog m

/-- The key dispatcher never fails: no key input panics in any phase. -/
theorem handle_key_isSome (catalog : List App) (m : AppModel)
    (ctrl : Bool) (key : KeyCode) :
    (handle_key catalog m ctrl key).isSome = true := by
  unfold handle_key
  split
  · split <;> rfl
  · rcases m.wizard.phase <;> simp only <;>
      first
        | rfl
        | exact handle_identity_input_isSome m key
        | exact handle_shell_input_isSome m key
        | exact handle_devtools_input_isSome catalog m key
        | exact handle_apps_input_isSome catalog m key
        | skip
    cases key <;> simp only <;> first | rfl | (split <;> rfl)


/-- Cycling a shell-configuration value forward then backward (or backward
then forward) restores the state exactly, provided the multiplexer field
does not hold the non-canonical encoding `some MultiplexerChoice.none`
(the code always writes `none` for that choice, so the encoding is
unreachable). -/
theorem cycle_shell_option_round_trip (m : AppModel)
    (hm : m.wizard.shell_config.multiplexer ≠ some MultiplexerChoice.none) :
    (cycle_shell_option m true).bind
      (fun m1 => cycle_shell_option m1 false) = some m ∧
    (cycle_shell_option m false).bind
      (fun m1 => cycle_shell_option m1 true) = some m := by
  obtain ⟨⟨ph, id0, ⟨sh, pr, te, mux⟩, sel, cur, scr, inf, sd⟩,
    b1, b2, lg, t1, t2, t3, t4, t5, cp, ii, hr, ht, em⟩ := m
  constructor <;>
    (rcases cur with _ | _ | _ | _ | n
     · cases sh <;> with_unfolding_all rfl
     · cases pr <;> with_unfolding_all rfl
     · cases te <;> with_unfolding_all rfl
     · rcases mux with _ | t
       · with_unfolding_all rfl
       · cases t
         · with_unfolding_all rfl
         · with_unfolding_all rfl
         · exact absurd rfl hm
     · rfl)

/-- C8 (amended): no key input panics in any phase's handler; the
Identity-phase field navigation is modular in both directions (modulo the
4 fields, for in-range fields going up); value cycling is a bidirectional
modular cycle (a forward and a backward cycle cancel in either order, on
states whose multiplexer field avoids the non-canonical
`some MultiplexerChoice.none` encoding that the code never writes);
category cycling in DevTools and Apps is modular; but cursor navigation in
the Shell, DevTools and Apps phases clamps — saturating at 0 going up and
stopping at the list end going down — instead of wrapping around. -/
theorem input_handler_arithmetic (catalog : List App) :
    (∀ m ctrl key, (handle_key catalog m ctrl key).isSome = true) ∧
    (∀ m : AppModel, ∃ m1, handle_identity_input m KeyCode.down = some m1 ∧
      m1.wizard.input_field = (m.wizard.input_field + 1) % 4) ∧
    (∀ m : AppModel, m.wizard.input_field < 4 →
      ∃ m1, handle_identity_input m KeyCode.up = some m1 ∧
        m1.wizard.input_field = (m.wizard.input_field + 3) % 4) ∧
    (∀ m : AppModel,
      m.wizard.shell_config.multiplexer ≠ some MultiplexerChoice.none →
      (cycle_shell_option m true).bind
        (fun m1 => cycle_shell_option m1 false) = some m) ∧
    (∀ m : AppModel,
      m.wizard.shell_config.multiplexer ≠ some MultiplexerChoice.none →
      (cycle_shell_option m false).bind
        (fun m1 => cycle_shell_option m1 true) = some m) ∧
    (∀ m, ∃ m1, handle_shell_input m KeyCode.up = some m1 ∧
      m1.wizard.cursor_position = m.wizard.cursor_position - 1) ∧
    (∀ m, ∃ m1, handle_shell_input m KeyCode.down = some m1 ∧
      m1.wizard.cursor_position = min (m.wizard.cursor_position + 1) 3) ∧
    (∀ m, ∃ m1 k, get_current_list_len catalog m = some k ∧
      handle_devtools_input catalog m KeyCode.down = some m1 ∧
      m1.wizard.cursor_position = min (m.wizard.cursor_position + 1) (k - 1)) ∧
    (∀ m, ∃ m1 k, get_current_list_len catalog m = some k ∧
      handle_apps_input catalog m KeyCode.down = some m1 ∧
      m1.wizard.cursor_position = min (m.wizard.cursor_position + 1) (k - 1)) ∧
    (∀ m : AppModel, ∃ m1, handle_devtools_input catalog m KeyCode.tab = some m1 ∧
      m1.wizard.scroll_offset = (m.wizard.scroll_offset + 1) % 5) ∧
    (∀ m : AppModel, ∃ m1, handle_apps_input catalog m KeyCode.tab = some m1 ∧
      m1.wizard.scroll_offset = (m.wizard.scroll_offset + 1) % 16) ∧
    (∀ m : AppModel, m.wizard.scroll_offset < 16 →
      ∃ m1, handle_apps_input catalog m KeyCode.backTab = some m1 ∧
        m1.wizard.scroll_offset = (m.wizard.scroll_offset + 15) % 16) := by
  refine ⟨handle_key_isSome catalog, ?_, ?_, ?_, ?_, ?_, ?_, ?_, ?_, ?_,
    ?_, ?_⟩
  · intro m
    exact ⟨_, rfl, rfl⟩
  · intro m h
    refine ⟨_, rfl, ?_⟩
    by_cases h0 : m.wizard.input_field = 0
    · simp [h0]
    · simp only [if_neg h0]
      omega
  · intro m hm
    exact (cycle_shell_option_round_trip m hm).1
  · intro m hm
    exact (cycle_shell_option_round_trip m hm).2
  · intro m
    exact ⟨_, rfl, rfl⟩
  · intro m
    exact ⟨_, rfl, rfl⟩
  · intro m
    obtain ⟨k, hk⟩ := Option.isSome_iff_exists.1
      (get_current_list_len_isSome catalog m)
    refine ⟨{ m with wizard := { m.wizard with cursor_position :=
      (min (m.wizard.cursor_position + 1) (k - 1)) } }, k, hk, ?_, rfl⟩
    show (get_current_list_len catalog m).map _ = _
    rw [hk]
    rfl
  · intro m
    obtain ⟨k, hk⟩ := Option.isSome_iff_exists.1
      (get_current_list_len_isSome catalog m)
    refine ⟨{ m with wizard := { m.wizard with cursor_position :=
      (min (m.wizard.cursor_position + 1) (k - 1)) } }, k, hk, ?_, rfl⟩
    show (get_current_list_len catalog m).map _ = _
    rw [hk]
    rfl
  · intro m
    exact ⟨_, rfl, rfl⟩
  · intro m
    exact ⟨_, rfl, rfl⟩
  · intro m h
    refine ⟨_, rfl, ?_⟩
    show (if m.wizard.scroll_offset = 0 then Category.all.length - 1
      else m.wizard.scroll_offset - 1) = (m.wizard.scroll_offset + 15) % 16
    by_cases h0 : m.wizard.scroll_offset = 0
    · rw [if_pos h0, h0]
      decide
    · rw [if_neg h0]
      omega

/-- Witness for C8 (amended) at concrete states. -/
theorem input_handler_arithmetic_witness :
    (handle_key [] sampleShellApp false KeyCode.down).isSome = true ∧
    (∃ m1, handle_identity_input sampleShellApp KeyCode.up = some m1 ∧
      m1.wizard.input_field = (sampleShellApp.wizard.input_field + 3) % 4) ∧
    ((cycle_shell_option sampleShellApp true).bind
      (fun m1 => cycle_shell_option m1 false) = some sampleShellApp) ∧
    (∃ m1, handle_apps_input [] sampleShellApp KeyCode.backTab = some m1 ∧
      m1.wizard.scroll_offset = (sampleShellApp.wizard.scroll_offset + 15) % 16) :=
  ⟨(input_handler_arithmetic []).1 sampleShellApp false KeyCode.down,
   (input_handler_arithmetic []).2.2.1 sampleShellApp (by decide),
   (input_handler_arithmetic []).2.2.2.1 sampleShellApp (by decide),
   (input_handler_arithmetic []).2.2.2.2.2.2.2.2.2.2.2 sampleShellApp
     (by decide)⟩


end Loadstar
